import Mathlib

/-!
Verification development for the MaiConverter simai core
(`maiconverter/simai.py` and `maiconverter/tool/time.py`).

Python floats are modelled as exact rationals (`ℚ`); every value the
code rounds with `round(10000.0 * x) / 10000.0` is modelled with the
same arithmetic over `ℚ`, using Python's banker's rounding for `round`.
Fallible code is modelled with `Except String`.
-/

set_option allowUnsafeReducibility true in
attribute [semireducible] Rat.mul Rat.div Rat.inv Rat.add Rat.sub Rat.neg Rat.floor Rat.ceil

/-- Python `round` to an integer: round half to even (banker's rounding). -/
def pyRound (x : ℚ) : ℤ :=
  let f : ℤ := ⌊x⌋
  let r : ℚ := x - (f : ℚ)
  if r < 1/2 then f
  else if 1/2 < r then f + 1
  else if f % 2 = 0 then f else f + 1

/-- The `round(10000.0 * x) / 10000.0` idiom used throughout `simai.py`. -/
def round4 (x : ℚ) : ℚ := ((pyRound (10000 * x) : ℤ) : ℚ) / 10000

/-- Python `int(x)`: truncation toward zero. -/
def pyInt (x : ℚ) : ℤ := if x < 0 then ⌈x⌉ else ⌊x⌋

/-- Python `math.isclose(a, b, abs_tol=0.0005)` (the default `rel_tol`
of `1e-09` still participates: the tolerance is the max of the two). -/
def pyIsClose (a b : ℚ) : Bool :=
  decide (|a - b| ≤ max ((1/1000000000) * max |a| |b|) (1/2000))

/-! ## Model of `maiconverter/tool/time.py` -/

/-- Stable insertion of a `(measure, tempo)` pair into a list sorted by
measure; together with `sortPairs` this models Python's stable
`list.sort(key=lambda x: x[0])`. -/
def insertPair (x : ℚ × ℚ) : List (ℚ × ℚ) → List (ℚ × ℚ)
  | [] => [x]
  | y :: ys => if y.1 < x.1 then y :: insertPair x ys else x :: y :: ys

/-- Stable sort by measure (model of `bpms.sort(key=lambda x: x[0])`). -/
def sortPairs : List (ℚ × ℚ) → List (ℚ × ℚ)
  | [] => []
  | x :: xs => insertPair x (sortPairs xs)

/-- Model of `_check_bpms`. -/
def check_bpms (bpms : List (ℚ × ℚ)) : Except String Unit :=
  if bpms.length = 0 then .error "No BPMs given."
  else if bpms.any (fun x => decide (0 ≤ x.1) && decide (x.1 ≤ 1)) then .ok ()
  else .error "No starting BPM defined."

/-- The `for current_measure, current_bpm in bpms` loop of
`measure_to_second`, with the running `previous_*` state made explicit.
Every iteration computes `60 * 4 * gap_measure / previous_bpm`, which in
Python raises `ZeroDivisionError` when `previous_bpm` is the float
`0.0`; so does the final division after the loop (the `[]` case). -/
def m2sLoop (measure : ℚ) : List (ℚ × ℚ) → ℚ → ℚ → ℚ → Except String ℚ
  | [], pm, pb, pt =>
    if pb = 0 then .error "ZeroDivisionError"
    else .ok (pt + 60 * 4 * (measure - pm) / pb)
  | (cm, cb) :: rest, pm, pb, pt =>
    if pb = 0 then .error "ZeroDivisionError"
    else
      let ct := pt + 60 * 4 * (cm - pm) / pb
      if pyIsClose cm measure then .ok ct
      else if measure < cm then .ok (pt + 60 * 4 * (measure - pm) / pb)
      else m2sLoop measure rest cm cb ct

/-- The breakpoint loop of `second_to_measure`.  Each iteration divides
by the running `previous_bpm` (raising `ZeroDivisionError` on zero); the
computation after the loop only divides by `60 * 4`, so the `[]` case
cannot raise. -/
def s2mLoop (seconds : ℚ) : List (ℚ × ℚ) → ℚ → ℚ → ℚ → Except String ℚ
  | [], pm, pb, pt => .ok (pm + (seconds - pt) * pb / (60 * 4))
  | (cm, cb) :: rest, pm, pb, pt =>
    if pb = 0 then .error "ZeroDivisionError"
    else
      let ct := pt + 60 * (cm - pm) * 4 / pb
      if pyIsClose ct seconds then .ok cm
      else if seconds < ct then .ok (pm + (seconds - pt) * pb / (60 * 4))
      else s2mLoop seconds rest cm cb ct

/-- The numeric value computed by `m2sLoop` on executions that never
divide by a zero tempo (`m2sLoop_ok` below ties the two); the
quantitative walk lemmas are stated over this total function. -/
def m2sWalk (measure : ℚ) : List (ℚ × ℚ) → ℚ → ℚ → ℚ → ℚ
  | [], pm, pb, pt => pt + 60 * 4 * (measure - pm) / pb
  | (cm, cb) :: rest, pm, pb, pt =>
    let ct := pt + 60 * 4 * (cm - pm) / pb
    if pyIsClose cm measure then ct
    else if measure < cm then pt + 60 * 4 * (measure - pm) / pb
    else m2sWalk measure rest cm cb ct

/-- The numeric value computed by `s2mLoop` on division-by-zero-free
executions (see `s2mLoop_ok`). -/
def s2mWalk (seconds : ℚ) : List (ℚ × ℚ) → ℚ → ℚ → ℚ → ℚ
  | [], pm, pb, pt => pm + (seconds - pt) * pb / (60 * 4)
  | (cm, cb) :: rest, pm, pb, pt =>
    let ct := pt + 60 * (cm - pm) * 4 / pb
    if pyIsClose ct seconds then cm
    else if seconds < ct then pm + (seconds - pt) * pb / (60 * 4)
    else s2mWalk seconds rest cm cb ct

/-- Model of `measure_to_second`.  The first component is the final
state of the caller's `bpms` list (Python sorts it in place after the
validation, and the mutation persists even when the loop then raises);
the second component is the returned value or the raised error. -/
def measure_to_second (measure : ℚ) (bpms : List (ℚ × ℚ)) :
    List (ℚ × ℚ) × Except String ℚ :=
  if measure ≤ 1 then (bpms, .ok 0)
  else
    match check_bpms bpms with
    | .error e => (bpms, .error e)
    | .ok _ =>
      match sortPairs bpms with
      | [] => ([], .error "IndexError")
      | (m0, b0) :: rest => ((m0, b0) :: rest, m2sLoop measure ((m0, b0) :: rest) 1 b0 0)

/-- Model of `second_to_measure` (same reading as `measure_to_second`). -/
def second_to_measure (seconds : ℚ) (bpms : List (ℚ × ℚ)) :
    List (ℚ × ℚ) × Except String ℚ :=
  if seconds ≤ 0 then (bpms, .ok 1)
  else
    match check_bpms bpms with
    | .error e => (bpms, .error e)
    | .ok _ =>
      match sortPairs bpms with
      | [] => ([], .error "IndexError")
      | (m0, b0) :: rest => ((m0, b0) :: rest, s2mLoop seconds ((m0, b0) :: rest) 1 b0 0)

/-! ### Basic sorting lemmas -/

theorem insertPair_perm (x : ℚ × ℚ) (l : List (ℚ × ℚ)) :
    (insertPair x l).Perm (x :: l) := by
  induction l with
  | nil => simp [insertPair]
  | cons y ys ih =>
    by_cases h : y.1 < x.1
    · simp only [insertPair, if_pos h]
      exact ((ih.cons y).trans (List.Perm.swap x y ys))
    · simp [insertPair, if_neg h]

theorem sortPairs_perm (l : List (ℚ × ℚ)) : (sortPairs l).Perm l := by
  induction l with
  | nil => simp [sortPairs]
  | cons x xs ih =>
    exact (insertPair_perm x (sortPairs xs)).trans (ih.cons x)

theorem insertPair_sorted (x : ℚ × ℚ) (l : List (ℚ × ℚ))
    (h : l.Pairwise (fun a b => a.1 ≤ b.1)) :
    (insertPair x l).Pairwise (fun a b => a.1 ≤ b.1) := by
  induction l with
  | nil => simp [insertPair]
  | cons y ys ih =>
    rcases List.pairwise_cons.mp h with ⟨hy, hys⟩
    by_cases hlt : y.1 < x.1
    · simp only [insertPair, if_pos hlt]
      refine List.pairwise_cons.mpr ⟨?_, ih hys⟩
      intro z hz
      have := (insertPair_perm x ys).mem_iff.mp hz
      rcases List.mem_cons.mp this with h1 | h2
      · exact h1 ▸ le_of_lt hlt
      · exact hy z h2
    · simp only [insertPair, if_neg hlt]
      refine List.pairwise_cons.mpr ⟨?_, h⟩
      intro z hz
      rcases List.mem_cons.mp hz with h1 | h2
      · exact h1 ▸ le_of_not_lt hlt
      · exact le_trans (le_of_not_lt hlt) (hy z h2)

theorem sortPairs_sorted (l : List (ℚ × ℚ)) :
    (sortPairs l).Pairwise (fun a b => a.1 ≤ b.1) := by
  induction l with
  | nil => simp [sortPairs]
  | cons x xs ih => exact insertPair_sorted x (sortPairs xs) ih

theorem sortPairs_length (l : List (ℚ × ℚ)) :
    (sortPairs l).length = l.length :=
  (sortPairs_perm l).length_eq

/-- A list already sorted (strictly, by measure) is left unchanged by
`sortPairs`. -/
theorem insertPair_of_lt (x : ℚ × ℚ) (l : List (ℚ × ℚ))
    (h : ∀ y ∈ l, x.1 < y.1) : insertPair x l = x :: l := by
  cases l with
  | nil => rfl
  | cons y ys =>
    have : ¬ y.1 < x.1 := not_lt_of_gt (h y (List.mem_cons_self y ys))
    simp [insertPair, this]

/-- Strictly-increasing-by-measure predicate used for time-converter
preconditions. -/
def StrictIncPairs : List (ℚ × ℚ) → Prop
  | [] => True
  | x :: xs => (∀ y ∈ xs, x.1 < y.1) ∧ StrictIncPairs xs

theorem sortPairs_eq_self (l : List (ℚ × ℚ)) (h : StrictIncPairs l) :
    sortPairs l = l := by
  induction l with
  | nil => rfl
  | cons x xs ih =>
    rcases h with ⟨hx, hxs⟩
    rw [sortPairs, ih hxs]
    exact insertPair_of_lt x xs hx

/-! ### The loops against their zero-free values -/

theorem m2sLoop_ok (m : ℚ) (l : List (ℚ × ℚ)) :
    ∀ pm pb pt, pb ≠ 0 → (∀ x ∈ l, x.2 ≠ 0) →
      m2sLoop m l pm pb pt = .ok (m2sWalk m l pm pb pt) := by
  induction l with
  | nil =>
    intro pm pb pt hpb _
    rw [m2sLoop, if_neg hpb, m2sWalk]
  | cons hd rest ih =>
    intro pm pb pt hpb hall
    obtain ⟨cm, cb⟩ := hd
    rw [m2sLoop, if_neg hpb, m2sWalk]
    by_cases hcl : pyIsClose cm m = true
    · rw [if_pos hcl, if_pos hcl]
    · rw [if_neg hcl, if_neg hcl]
      by_cases hbm : m < cm
      · rw [if_pos hbm, if_pos hbm]
      · rw [if_neg hbm, if_neg hbm]
        exact ih cm cb _ (hall (cm, cb) (List.mem_cons_self _ _))
          (fun x hx => hall x (List.mem_cons_of_mem _ hx))

theorem s2mLoop_ok (t : ℚ) (l : List (ℚ × ℚ)) :
    ∀ pm pb pt, pb ≠ 0 → (∀ x ∈ l, x.2 ≠ 0) →
      s2mLoop t l pm pb pt = .ok (s2mWalk t l pm pb pt) := by
  induction l with
  | nil =>
    intro pm pb pt _ _
    rw [s2mLoop, s2mWalk]
  | cons hd rest ih =>
    intro pm pb pt hpb hall
    obtain ⟨cm, cb⟩ := hd
    rw [s2mLoop, if_neg hpb, s2mWalk]
    by_cases hcl : pyIsClose (pt + 60 * (cm - pm) * 4 / pb) t = true
    · rw [if_pos hcl, if_pos hcl]
    · rw [if_neg hcl, if_neg hcl]
      by_cases hbm : t < pt + 60 * (cm - pm) * 4 / pb
      · rw [if_pos hbm, if_pos hbm]
      · rw [if_neg hbm, if_neg hbm]
        exact ih cm cb _ (hall (cm, cb) (List.mem_cons_self _ _))
          (fun x hx => hall x (List.mem_cons_of_mem _ hx))

theorem m2sLoop_error_msg (m : ℚ) (l : List (ℚ × ℚ)) :
    ∀ pm pb pt e, m2sLoop m l pm pb pt = .error e → e = "ZeroDivisionError" := by
  induction l with
  | nil =>
    intro pm pb pt e he
    rw [m2sLoop] at he
    by_cases hpb : pb = 0
    · rw [if_pos hpb] at he
      exact (Except.error.injEq _ _).mp he.symm
    · rw [if_neg hpb] at he
      exact absurd he (by simp)
  | cons hd rest ih =>
    intro pm pb pt e he
    obtain ⟨cm, cb⟩ := hd
    rw [m2sLoop] at he
    by_cases hpb : pb = 0
    · rw [if_pos hpb] at he
      exact (Except.error.injEq _ _).mp he.symm
    · rw [if_neg hpb] at he
      by_cases hcl : pyIsClose cm m = true
      · rw [if_pos hcl] at he
        exact absurd he (by simp)
      · rw [if_neg hcl] at he
        by_cases hbm : m < cm
        · rw [if_pos hbm] at he
          exact absurd he (by simp)
        · rw [if_neg hbm] at he
          exact ih cm cb _ e he

theorem s2mLoop_error_msg (t : ℚ) (l : List (ℚ × ℚ)) :
    ∀ pm pb pt e, s2mLoop t l pm pb pt = .error e → e = "ZeroDivisionError" := by
  induction l with
  | nil =>
    intro pm pb pt e he
    rw [s2mLoop] at he
    exact absurd he (by simp)
  | cons hd rest ih =>
    intro pm pb pt e he
    obtain ⟨cm, cb⟩ := hd
    rw [s2mLoop] at he
    by_cases hpb : pb = 0
    · rw [if_pos hpb] at he
      exact (Except.error.injEq _ _).mp he.symm
    · rw [if_neg hpb] at he
      by_cases hcl : pyIsClose (pt + 60 * (cm - pm) * 4 / pb) t = true
      · rw [if_pos hcl] at he
        exact absurd he (by simp)
      · rw [if_neg hcl] at he
        by_cases hbm : t < pt + 60 * (cm - pm) * 4 / pb
        · rw [if_pos hbm] at he
          exact absurd he (by simp)
        · rw [if_neg hbm] at he
          exact ih cm cb _ e he

/-- A zero tempo at the head of the sorted list makes the very first
loop iteration of `measure_to_second` divide by zero. -/
theorem m2sLoop_zero_head (m m0 : ℚ) (rest : List (ℚ × ℚ)) :
    m2sLoop m ((m0, 0) :: rest) 1 0 0 = .error "ZeroDivisionError" := by
  rw [m2sLoop, if_pos rfl]

theorem s2mLoop_zero_head (t m0 : ℚ) (rest : List (ℚ × ℚ)) :
    s2mLoop t ((m0, 0) :: rest) 1 0 0 = .error "ZeroDivisionError" := by
  rw [s2mLoop, if_pos rfl]

/-! ### Validation behaviour of the time converter (C9) -/

theorem check_bpms_error_iff (bpms : List (ℚ × ℚ)) :
    (∃ e, check_bpms bpms = .error e) ↔
      (bpms = [] ∨ ∀ x ∈ bpms, ¬(0 ≤ x.1 ∧ x.1 ≤ 1)) := by
  unfold check_bpms
  by_cases h1 : bpms.length = 0
  · rw [if_pos h1]
    have : bpms = [] := List.length_eq_zero.mp h1
    subst this
    simp
  · rw [if_neg h1]
    by_cases h2 : bpms.any (fun x => decide (0 ≤ x.1) && decide (x.1 ≤ 1)) = true
    · rw [if_pos h2]
      simp only [List.any_eq_true, Bool.and_eq_true, decide_eq_true_eq] at h2
      obtain ⟨x, hx, hvx⟩ := h2
      constructor
      · rintro ⟨e, he⟩
        exact absurd he (by simp)
      · rintro (rfl | hall)
        · exact absurd rfl h1
        · exact absurd hvx (hall x hx)
    · rw [if_neg h2]
      simp only [List.any_eq_true, Bool.and_eq_true, decide_eq_true_eq, not_exists] at h2
      push_neg at h2
      refine ⟨fun _ => Or.inr ?_, fun _ => ⟨_, rfl⟩⟩
      intro x hx
      rintro ⟨ha, hb⟩
      exact absurd hb (not_le.mpr (h2 x hx ha))

theorem sortPairs_ne_nil (bpms : List (ℚ × ℚ)) (h : bpms ≠ []) :
    sortPairs bpms ≠ [] := by
  intro hs
  have := sortPairs_length bpms
  rw [hs] at this
  exact h (List.length_eq_zero.mp this.symm)

/-- C9 (amended): once past the early-return guards (`measure > 1.0`,
resp. `seconds > 0.0`), `measure_to_second` and `second_to_measure`
raise a validation error (one distinct from `ZeroDivisionError`) exactly
when the breakpoint list is empty or has no breakpoint with measure in
`[0, 1]`; when additionally every tempo is nonzero this is the only way
they raise at all; a zero tempo at the head of the sorted list raises
`ZeroDivisionError` even on a valid list; and queries at or before the
guard return `0.0` (resp. `1.0`) without any validation of the list. -/
theorem time_validation :
    (∀ (m : ℚ) (bpms : List (ℚ × ℚ)), 1 < m →
      ((∃ e, (measure_to_second m bpms).2 = .error e ∧ e ≠ "ZeroDivisionError") ↔
        (bpms = [] ∨ ∀ x ∈ bpms, ¬(0 ≤ x.1 ∧ x.1 ≤ 1)))) ∧
    (∀ (s : ℚ) (bpms : List (ℚ × ℚ)), 0 < s →
      ((∃ e, (second_to_measure s bpms).2 = .error e ∧ e ≠ "ZeroDivisionError") ↔
        (bpms = [] ∨ ∀ x ∈ bpms, ¬(0 ≤ x.1 ∧ x.1 ≤ 1)))) ∧
    (∀ (m : ℚ) (bpms : List (ℚ × ℚ)), 1 < m → (∀ x ∈ bpms, x.2 ≠ 0) →
      ((∃ e, (measure_to_second m bpms).2 = .error e) ↔
        (bpms = [] ∨ ∀ x ∈ bpms, ¬(0 ≤ x.1 ∧ x.1 ≤ 1)))) ∧
    (∀ (s : ℚ) (bpms : List (ℚ × ℚ)), 0 < s → (∀ x ∈ bpms, x.2 ≠ 0) →
      ((∃ e, (second_to_measure s bpms).2 = .error e) ↔
        (bpms = [] ∨ ∀ x ∈ bpms, ¬(0 ≤ x.1 ∧ x.1 ≤ 1)))) ∧
    (∀ (m : ℚ) (bpms : List (ℚ × ℚ)) (m0 : ℚ) (rest : List (ℚ × ℚ)), 1 < m →
      check_bpms bpms = .ok () → sortPairs bpms = (m0, 0) :: rest →
      (measure_to_second m bpms).2 = .error "ZeroDivisionError") ∧
    (∀ (s : ℚ) (bpms : List (ℚ × ℚ)) (m0 : ℚ) (rest : List (ℚ × ℚ)), 0 < s →
      check_bpms bpms = .ok () → sortPairs bpms = (m0, 0) :: rest →
      (second_to_measure s bpms).2 = .error "ZeroDivisionError") ∧
    (∀ (m : ℚ) (bpms : List (ℚ × ℚ)), m ≤ 1 →
      measure_to_second m bpms = (bpms, .ok 0)) ∧
    (∀ (s : ℚ) (bpms : List (ℚ × ℚ)), s ≤ 0 →
      second_to_measure s bpms = (bpms, .ok 1)) := by
  have hmem_sort : ∀ (bpms : List (ℚ × ℚ)) (y : ℚ × ℚ),
      y ∈ sortPairs bpms → y ∈ bpms :=
    fun bpms y hy => (sortPairs_perm bpms).mem_iff.mp hy
  have hchk_err : ∀ (bpms : List (ℚ × ℚ)) e, check_bpms bpms = .error e →
      e ≠ "ZeroDivisionError" := by
    intro bpms e he
    unfold check_bpms at he
    by_cases h1 : bpms.length = 0
    · rw [if_pos h1] at he
      have hi := (Except.error.injEq _ _).mp he.symm
      first
      | rw [hi]
      | rw [← hi]
      decide
    · rw [if_neg h1] at he
      by_cases h2 : bpms.any (fun x => decide (0 ≤ x.1) && decide (x.1 ≤ 1)) = true
      · rw [if_pos h2] at he
        exact absurd he (by simp)
      · rw [if_neg h2] at he
        have hi := (Except.error.injEq _ _).mp he.symm
        first
        | rw [hi]
        | rw [← hi]
        decide
  refine ⟨?_, ?_, ?_, ?_, ?_, ?_, ?_, ?_⟩
  · intro m bpms hm
    unfold measure_to_second
    rw [if_neg (not_le.mpr hm)]
    rcases hc : check_bpms bpms with e | u
    · simp only []
      rw [← check_bpms_error_iff]
      exact ⟨fun _ => ⟨e, hc⟩, fun _ => ⟨e, rfl, hchk_err bpms e hc⟩⟩
    · have hne : ¬(bpms = [] ∨ ∀ x ∈ bpms, ¬(0 ≤ x.1 ∧ x.1 ≤ 1)) := by
        intro hb
        obtain ⟨e, he⟩ := (check_bpms_error_iff bpms).mpr hb
        rw [hc] at he
        exact absurd he (by simp)
      have hnil : bpms ≠ [] := fun hb => hne (Or.inl hb)
      rcases hs : sortPairs bpms with _ | ⟨⟨m0, b0⟩, rest⟩
      · exact absurd hs (sortPairs_ne_nil bpms hnil)
      · simp only []
        refine iff_of_false ?_ hne
        rintro ⟨e, he, hnz⟩
        exact hnz (m2sLoop_error_msg m ((m0, b0) :: rest) 1 b0 0 e he)
  · intro s bpms hs0
    unfold second_to_measure
    rw [if_neg (not_le.mpr hs0)]
    rcases hc : check_bpms bpms with e | u
    · simp only []
      rw [← check_bpms_error_iff]
      exact ⟨fun _ => ⟨e, hc⟩, fun _ => ⟨e, rfl, hchk_err bpms e hc⟩⟩
    · have hne : ¬(bpms = [] ∨ ∀ x ∈ bpms, ¬(0 ≤ x.1 ∧ x.1 ≤ 1)) := by
        intro hb
        obtain ⟨e, he⟩ := (check_bpms_error_iff bpms).mpr hb
        rw [hc] at he
        exact absurd he (by simp)
      have hnil : bpms ≠ [] := fun hb => hne (Or.inl hb)
      rcases hs : sortPairs bpms with _ | ⟨⟨m0, b0⟩, rest⟩
      · exact absurd hs (sortPairs_ne_nil bpms hnil)
      · simp only []
        refine iff_of_false ?_ hne
        rintro ⟨e, he, hnz⟩
        exact hnz (s2mLoop_error_msg s ((m0, b0) :: rest) 1 b0 0 e he)
  · intro m bpms hm hnz
    unfold measure_to_second
    rw [if_neg (not_le.mpr hm)]
    rcases hc : check_bpms bpms with e | u
    · simp only []
      rw [← check_bpms_error_iff]
      exact ⟨fun _ => ⟨e, hc⟩, fun _ => ⟨e, rfl⟩⟩
    · have hne : ¬(bpms = [] ∨ ∀ x ∈ bpms, ¬(0 ≤ x.1 ∧ x.1 ≤ 1)) := by
        intro hb
        obtain ⟨e, he⟩ := (check_bpms_error_iff bpms).mpr hb
        rw [hc] at he
        exact absurd he (by simp)
      have hnil : bpms ≠ [] := fun hb => hne (Or.inl hb)
      rcases hs : sortPairs bpms with _ | ⟨⟨m0, b0⟩, rest⟩
      · exact absurd hs (sortPairs_ne_nil bpms hnil)
      · simp only []
        have hb0 : b0 ≠ 0 :=
          hnz (m0, b0) (hmem_sort bpms (m0, b0) (hs ▸ List.mem_cons_self _ _))
        have hrest : ∀ x ∈ rest, x.2 ≠ 0 := fun x hx =>
          hnz x (hmem_sort bpms x (hs ▸ List.mem_cons_of_mem _ hx))
        rw [m2sLoop_ok m ((m0, b0) :: rest) 1 b0 0 hb0
          (fun x hx => (List.mem_cons.mp hx).elim (fun h => h ▸ hb0) (hrest x))]
        exact iff_of_false (by rintro ⟨e, he⟩; exact absurd he (by simp)) hne
  · intro s bpms hs0 hnz
    unfold second_to_measure
    rw [if_neg (not_le.mpr hs0)]
    rcases hc : check_bpms bpms with e | u
    · simp only []
      rw [← check_bpms_error_iff]
      exact ⟨fun _ => ⟨e, hc⟩, fun _ => ⟨e, rfl⟩⟩
    · have hne : ¬(bpms = [] ∨ ∀ x ∈ bpms, ¬(0 ≤ x.1 ∧ x.1 ≤ 1)) := by
        intro hb
        obtain ⟨e, he⟩ := (check_bpms_error_iff bpms).mpr hb
        rw [hc] at he
        exact absurd he (by simp)
      have hnil : bpms ≠ [] := fun hb => hne (Or.inl hb)
      rcases hs : sortPairs bpms with _ | ⟨⟨m0, b0⟩, rest⟩
      · exact absurd hs (sortPairs_ne_nil bpms hnil)
      · simp only []
        have hb0 : b0 ≠ 0 :=
          hnz (m0, b0) (hmem_sort bpms (m0, b0) (hs ▸ List.mem_cons_self _ _))
        have hrest : ∀ x ∈ rest, x.2 ≠ 0 := fun x hx =>
          hnz x (hmem_sort bpms x (hs ▸ List.mem_cons_of_mem _ hx))
        rw [s2mLoop_ok s ((m0, b0) :: rest) 1 b0 0 hb0
          (fun x hx => (List.mem_cons.mp hx).elim (fun h => h ▸ hb0) (hrest x))]
        exact iff_of_false (by rintro ⟨e, he⟩; exact absurd he (by simp)) hne
  · intro m bpms m0 rest hm hchk hsort
    unfold measure_to_second
    rw [if_neg (not_le.mpr hm), hchk, hsort]
    exact congrArg Prod.snd (congrArg _ (m2sLoop_zero_head m m0 rest)) |>.trans rfl
  · intro s bpms m0 rest hs0 hchk hsort
    unfold second_to_measure
    rw [if_neg (not_le.mpr hs0), hchk, hsort]
    exact congrArg Prod.snd (congrArg _ (s2mLoop_zero_head s m0 rest)) |>.trans rfl
  · intro m bpms hm
    unfold measure_to_second
    rw [if_pos hm]
  · intro s bpms hs0
    unfold second_to_measure
    rw [if_pos hs0]

/-- Witness for `time_validation` at concrete inputs: the empty list
raises a validation error past the guard, and a valid list whose only
tempo is zero raises `ZeroDivisionError`. -/
theorem time_validation_witness :
    (∃ e, (measure_to_second 2 ([] : List (ℚ × ℚ))).2 = .error e ∧
      e ≠ "ZeroDivisionError") ∧
    (measure_to_second 2 [((1 : ℚ), (0 : ℚ))]).2 = .error "ZeroDivisionError" :=
  ⟨(time_validation.1 2 [] (by norm_num)).mpr (Or.inl rfl),
    time_validation.2.2.2.2.1 2 [(1, 0)] 1 [] (by norm_num) rfl rfl⟩

/-- C9 (counterexample to the claim as stated): with an empty breakpoint
list, a query at or before the early-return guard raises no error at all. -/
theorem c9_counterexample :
    measure_to_second (1/2 : ℚ) [] = ([], .ok 0) ∧
      second_to_measure (-1 : ℚ) [] = ([], .ok 1) := ⟨rfl, rfl⟩

/-- C10: whenever `measure_to_second` / `second_to_measure` get past their
early-return guard and their validation, the caller's breakpoint list is
reordered in place (its final state is the first component of the model's
result, whether the call then returns or raises): afterwards it is
`sortPairs bpms`, ascending by measure and a permutation of the original
list. -/
theorem time_sort_mutation :
    (∀ (m : ℚ) (bpms : List (ℚ × ℚ)), 1 < m →
      (∃ x ∈ bpms, 0 ≤ x.1 ∧ x.1 ≤ 1) →
      (measure_to_second m bpms).1 = sortPairs bpms ∧
        (sortPairs bpms).Pairwise (fun a b => a.1 ≤ b.1) ∧
        (sortPairs bpms).Perm bpms) ∧
    (∀ (s : ℚ) (bpms : List (ℚ × ℚ)), 0 < s →
      (∃ x ∈ bpms, 0 ≤ x.1 ∧ x.1 ≤ 1) →
      (second_to_measure s bpms).1 = sortPairs bpms ∧
        (sortPairs bpms).Pairwise (fun a b => a.1 ≤ b.1) ∧
        (sortPairs bpms).Perm bpms) := by
  constructor
  · intro m bpms hm hex
    obtain ⟨x, hx, hx0, hx1⟩ := hex
    have hnil : bpms ≠ [] := List.ne_nil_of_mem hx
    have hlen : ¬ bpms.length = 0 := fun h => hnil (List.length_eq_zero.mp h)
    have hany : bpms.any (fun x => decide (0 ≤ x.1) && decide (x.1 ≤ 1)) = true := by
      simp only [List.any_eq_true, Bool.and_eq_true, decide_eq_true_eq]
      exact ⟨x, hx, hx0, hx1⟩
    obtain ⟨hd, tl, hs⟩ := List.exists_cons_of_ne_nil (sortPairs_ne_nil bpms hnil)
    obtain ⟨m0, b0⟩ := hd
    unfold measure_to_second
    rw [if_neg (not_le.mpr hm)]
    unfold check_bpms
    rw [if_neg hlen, if_pos hany, hs]
    refine ⟨rfl, ?_, ?_⟩
    · rw [← hs]; exact sortPairs_sorted bpms
    · rw [← hs]; exact sortPairs_perm bpms
  · intro s bpms hs0 hex
    obtain ⟨x, hx, hx0, hx1⟩ := hex
    have hnil : bpms ≠ [] := List.ne_nil_of_mem hx
    have hlen : ¬ bpms.length = 0 := fun h => hnil (List.length_eq_zero.mp h)
    have hany : bpms.any (fun x => decide (0 ≤ x.1) && decide (x.1 ≤ 1)) = true := by
      simp only [List.any_eq_true, Bool.and_eq_true, decide_eq_true_eq]
      exact ⟨x, hx, hx0, hx1⟩
    obtain ⟨hd, tl, hs⟩ := List.exists_cons_of_ne_nil (sortPairs_ne_nil bpms hnil)
    obtain ⟨m0, b0⟩ := hd
    unfold second_to_measure
    rw [if_neg (not_le.mpr hs0)]
    unfold check_bpms
    rw [if_neg hlen, if_pos hany, hs]
    refine ⟨rfl, ?_, ?_⟩
    · rw [← hs]; exact sortPairs_sorted bpms
    · rw [← hs]; exact sortPairs_perm bpms

/-- Witness for `time_sort_mutation` at a concrete unsorted list,
including a zero-tempo list whose call raises `ZeroDivisionError` yet
still exhibits the sorted final list state. -/
theorem time_sort_mutation_witness :
    ((measure_to_second 3 [((2 : ℚ), (60 : ℚ)), (1/2, 120)]).1 =
        sortPairs [((2 : ℚ), (60 : ℚ)), (1/2, 120)] ∧
      (sortPairs [((2 : ℚ), (60 : ℚ)), (1/2, 120)]).Pairwise (fun a b => a.1 ≤ b.1) ∧
      (sortPairs [((2 : ℚ), (60 : ℚ)), (1/2, 120)]).Perm
        [((2 : ℚ), (60 : ℚ)), (1/2, 120)]) ∧
    ((measure_to_second 3 [((2 : ℚ), (0 : ℚ)), (1/2, 0)]).1 =
        sortPairs [((2 : ℚ), (0 : ℚ)), (1/2, 0)] ∧
      (sortPairs [((2 : ℚ), (0 : ℚ)), (1/2, 0)]).Pairwise (fun a b => a.1 ≤ b.1) ∧
      (sortPairs [((2 : ℚ), (0 : ℚ)), (1/2, 0)]).Perm
        [((2 : ℚ), (0 : ℚ)), (1/2, 0)]) :=
  ⟨time_sort_mutation.1 3 [((2 : ℚ), (60 : ℚ)), (1/2, 120)] (by norm_num)
      ⟨(1/2, 120), by simp, by norm_num⟩,
    time_sort_mutation.1 3 [((2 : ℚ), (0 : ℚ)), (1/2, 0)] (by norm_num)
      ⟨(1/2, 0), by simp, by norm_num⟩⟩

/-- C8 (counterexample to the claim as stated): with breakpoints
`[(1, 120), (2, 1000000)]` — non-empty, ordered, positive tempos, and a
breakpoint at measure 1 — the round trip of measure `3` returns `2`: the
0.0005-second snap tolerance of `second_to_measure` swallows the whole
span after measure 2 because the second tempo is enormous. -/
theorem c8_counterexample :
    measure_to_second 3 [((1 : ℚ), (120 : ℚ)), (2, 1000000)] =
        ([((1 : ℚ), (120 : ℚ)), (2, 1000000)], .ok (25003/12500)) ∧
      second_to_measure (25003/12500) [((1 : ℚ), (120 : ℚ)), (2, 1000000)] =
        ([((1 : ℚ), (120 : ℚ)), (2, 1000000)], .ok 2) ∧
      ¬ |(2 : ℚ) - 3| ≤ 1/2000 := by
  refine ⟨rfl, rfl, by norm_num⟩

/-! ## Model of the note/event data model of `simai.py`

`NoteType`/`EventType` come from `maiconverter/note.py` / `event.py`
(not part of the two source files; only the enum member names are used
here, exactly as `simai.py` references them).  Python's per-class
attributes are modelled with one flat structure; each `__init__` becomes
a `make` function filling the fields that class sets (unused fields are
zeroed, mirroring attributes that are simply absent in Python). -/

inductive NoteType where
  | tap | break_tap | ex_tap | star | break_star | ex_star
  | hold | ex_hold | touch_tap | touch_hold | complete_slide
deriving DecidableEq

structure SimaiNote where
  measure : ℚ
  position : ℤ
  note_type : NoteType
  duration : ℚ
  end_position : ℤ
  pattern : String
  delay : ℚ
  reflect_position : Option ℤ
  is_firework : Bool
  zone : String
deriving DecidableEq

structure SimaiBPM where
  measure : ℚ
  bpm : ℚ
deriving DecidableEq

def simai_slide_dict : List (String × ℕ) :=
  [("-", 1), ("p", 4), ("q", 5), ("s", 6), ("z", 7), ("v", 8),
   ("pp", 9), ("qq", 10), ("w", 13)]

def simai_slide_patterns : List String :=
  ["-", "^", ">", "<", "p", "q", "s", "z", "v", "pp", "qq", "V", "w"]

/-- `SimaiTapNote.__init__`. -/
def SimaiTapNote.make (measure : ℚ) (position : ℤ)
    (is_break is_star is_ex : Bool) : SimaiNote :=
  let m := round4 measure
  let nt :=
    if is_ex && is_star then NoteType.ex_star
    else if is_ex && !is_star then NoteType.ex_tap
    else if is_star && is_break then NoteType.break_star
    else if is_star && !is_break then NoteType.star
    else if is_break then NoteType.break_tap
    else NoteType.tap
  ⟨m, position, nt, 0, 0, "", 0, none, false, ""⟩

/-- `SimaiHoldNote.__init__`.  Note: no validation of `duration`. -/
def SimaiHoldNote.make (measure : ℚ) (position : ℤ) (duration : ℚ)
    (is_ex : Bool) : SimaiNote :=
  ⟨round4 measure, position, if is_ex then NoteType.ex_hold else NoteType.hold,
   round4 duration, 0, "", 0, none, false, ""⟩

/-- `SimaiSlideNote.__init__` (validating; raises model). -/
def SimaiSlideNote.make (measure : ℚ) (start_position end_position : ℤ)
    (duration : ℚ) (pattern : String) (delay : ℚ)
    (reflect_position : Option ℤ) : Except String SimaiNote :=
  let m := round4 measure
  let du := round4 duration
  let de := round4 delay
  if du ≤ 0 then .error "Duration is not positive"
  else if de < 0 then .error "Delay is negative"
  else if pattern ∉ simai_slide_patterns then .error "Unknown slide pattern"
  else if pattern = "V" ∧ reflect_position = none then
    .error "Slide pattern V is given without reflection point"
  else
    .ok ⟨m, start_position, NoteType.complete_slide, du, end_position,
         pattern, de, reflect_position, false, ""⟩

/-- `SimaiTouchTapNote.__init__`. -/
def SimaiTouchTapNote.make (measure : ℚ) (position : ℤ) (zone : String)
    (is_firework : Bool) : SimaiNote :=
  ⟨round4 measure, position, NoteType.touch_tap, 0, 0, "", 0, none,
   is_firework, zone⟩

/-- `SimaiTouchHoldNote.__init__`. -/
def SimaiTouchHoldNote.make (measure : ℚ) (position : ℤ) (zone : String)
    (duration : ℚ) (is_firework : Bool) : SimaiNote :=
  ⟨round4 measure, position, NoteType.touch_hold, round4 duration, 0, "", 0,
   none, is_firework, zone⟩

/-- `SimaiBPM.__init__` (validating). -/
def SimaiBPM.make (measure bpm : ℚ) : Except String SimaiBPM :=
  if bpm ≤ 0 then .error "BPM is not positive"
  else .ok ⟨round4 measure, bpm⟩

/-! ## Slide geometry resolver -/

/-- `slide_distance`. -/
def slide_distance (start_position end_position : ℤ) (is_cw : Bool) : ℤ :=
  if is_cw then
    (if end_position ≤ start_position then end_position + 8 else end_position)
      - start_position
  else
    (if start_position ≤ end_position then start_position + 8 else start_position)
      - end_position

/-- `slide_is_cw`. -/
def slide_is_cw (start_position end_position : ℤ) : Except String Bool :=
  let diff := |end_position - start_position|
  let other_diff := |8 - diff|
  if diff = 4 then .error "Cannot choose direction for a 180 degree angle."
  else if (start_position < end_position ∧ other_diff < diff) ∨
      (end_position < start_position ∧ diff < other_diff) then .ok false
  else .ok true

/-- `simai_pattern_from_int`. -/
def simai_pattern_from_int (pattern : ℕ) (start_position end_position : ℤ) :
    Except String (String × Option ℤ) :=
  let top_list : List ℤ := [0, 1, 6, 7]
  match simai_slide_dict.find? (fun kv => kv.2 == pattern) with
  | some kv => .ok (kv.1, none)
  | none =>
    if pattern = 2 ∨ pattern = 3 then
      let distance := slide_distance start_position end_position (pattern == 3)
      if distance ≤ 3 then .ok ("^", none)
      else if (start_position ∈ top_list ∧ pattern = 3) ∨
          ¬(start_position ∈ top_list ∨ pattern = 3) then .ok (">", none)
      else .ok ("<", none)
    else if pattern = 11 ∨ pattern = 12 then
      if pattern = 11 then
        let rp := start_position - 2
        .ok ("V", some (if rp < 0 then rp + 8 else rp))
      else
        let rp := start_position + 2
        .ok ("V", some (if 7 < rp then rp - 8 else rp))
    else .error "Unknown pattern"

/-- `simai_pattern_to_int`.  `None`-returning paths give `.ok none`; the
`TypeError` Python would raise when a `V` slide lacks a reflect position
becomes an explicit error. -/
def simai_pattern_to_int (slide_note : SimaiNote) : Except String (Option ℕ) :=
  let pattern := slide_note.pattern
  let top_list : List ℤ := [0, 1, 6, 7]
  if pattern ∉ simai_slide_patterns then .ok none
  else
    match simai_slide_dict.find? (fun kv => kv.1 == pattern) with
    | some kv => .ok (some kv.2)
    | none =>
      if pattern = "^" then
        match slide_is_cw slide_note.position slide_note.end_position with
        | .error e => .error e
        | .ok true => .ok (some 3)
        | .ok false => .ok (some 2)
      else if pattern = ">" then
        .ok (some (if slide_note.position ∈ top_list then 3 else 2))
      else if pattern = "<" then
        .ok (some (if slide_note.position ∈ top_list then 2 else 3))
      else if pattern = "V" then
        match slide_note.reflect_position with
        | none => .error "TypeError"
        | some rp =>
          match slide_is_cw slide_note.position rp with
          | .error e => .error e
          | .ok true => .ok (some 12)
          | .ok false => .ok (some 11)
      else .ok none

/-! ### Direction resolution (C3) and pattern code round trip (C4) -/

/-- Executable per-pair check backing `slide_is_cw_spec`. -/
def slideIsCwCheck (s e : ℕ) : Bool :=
  match slide_is_cw (s : ℤ) (e : ℤ) with
  | .error msg =>
    decide (|(e : ℤ) - (s : ℤ)| = 4) &&
      (msg == "Cannot choose direction for a 180 degree angle.")
  | .ok b =>
    !decide (|(e : ℤ) - (s : ℤ)| = 4) &&
      (b == decide (((e : ℤ) - (s : ℤ)) % 8 ≤ ((s : ℤ) - (e : ℤ)) % 8))

theorem slideIsCwCheck_all : ∀ s < 8, ∀ e < 8, slideIsCwCheck s e = true := by decide

/-- C3: for lanes `0 ≤ start, end ≤ 7`, `slide_is_cw` errors exactly when
the lanes are 4 steps (180°) apart; otherwise it returns `true` exactly
when the clockwise arc from `start` to `end` is no longer than the
counter-clockwise arc (so the shorter arc wins, and a tie — only
`start = end` — goes clockwise). -/
theorem slide_is_cw_spec (s e : ℤ) (hs0 : 0 ≤ s) (hs7 : s ≤ 7)
    (he0 : 0 ≤ e) (he7 : e ≤ 7) :
    (slide_is_cw s e = .error "Cannot choose direction for a 180 degree angle."
        ↔ |e - s| = 4) ∧
      (|e - s| ≠ 4 →
        slide_is_cw s e = .ok (decide ((e - s) % 8 ≤ (s - e) % 8))) := by
  have hsn : s = ((s.toNat : ℕ) : ℤ) := (Int.toNat_of_nonneg hs0).symm
  have hen : e = ((e.toNat : ℕ) : ℤ) := (Int.toNat_of_nonneg he0).symm
  have hslt : s.toNat < 8 := by omega
  have helt : e.toNat < 8 := by omega
  have hB := slideIsCwCheck_all s.toNat hslt e.toNat helt
  rw [slideIsCwCheck] at hB
  rw [hsn, hen]
  rcases hcw : slide_is_cw ((s.toNat : ℕ) : ℤ) ((e.toNat : ℕ) : ℤ) with msg | b
  · rw [hcw] at hB
    simp only [Bool.and_eq_true, decide_eq_true_eq, beq_iff_eq] at hB
    constructor
    · exact ⟨fun _ => hB.1, fun _ => by rw [hB.2]⟩
    · intro hne
      exact absurd hB.1 hne
  · rw [hcw] at hB
    simp only [Bool.and_eq_true, Bool.not_eq_eq_eq_not, Bool.not_true,
      decide_eq_false_iff_not, beq_iff_eq] at hB
    constructor
    · constructor
      · intro h
        exact absurd h (by simp)
      · intro h
        exact absurd h hB.1
    · intro _
      rw [hB.2]

/-- Witness for `slide_is_cw_spec` at `(s, e) = (0, 3)`. -/
theorem slide_is_cw_spec_witness :
    (slide_is_cw 0 3 = .error "Cannot choose direction for a 180 degree angle."
        ↔ |(3 : ℤ) - 0| = 4) ∧
      (|(3 : ℤ) - 0| ≠ 4 →
        slide_is_cw 0 3 = .ok (decide (((3 : ℤ) - 0) % 8 ≤ ((0 : ℤ) - 3) % 8))) :=
  slide_is_cw_spec 0 3 (by norm_num) (by norm_num) (by norm_num) (by norm_num)

theorem simai_pattern_from_int_code_lt (c : ℕ) (s e : ℤ)
    (x : String × Option ℤ) (h : simai_pattern_from_int c s e = .ok x) :
    c < 14 := by
  by_contra hc
  push_neg at hc
  unfold simai_pattern_from_int at h
  have hfind : simai_slide_dict.find? (fun kv => kv.2 == c) = none := by
    rw [List.find?_eq_none]
    intro a ha
    fin_cases ha <;> simp <;> omega
  rw [hfind] at h
  have h23 : ¬(c = 2 ∨ c = 3) := by omega
  have h11 : ¬(c = 11 ∨ c = 12) := by omega
  simp only [if_neg h23, if_neg h11] at h
  exact absurd h (by simp)

/-- Executable check backing `simai_pattern_round_trip`. -/
def patternRoundTripCheck (c s e : ℕ) : Bool :=
  match simai_pattern_from_int c (s : ℤ) (e : ℤ) with
  | .error _ => true
  | .ok (pat, rp) =>
    match SimaiSlideNote.make 1 (s : ℤ) (e : ℤ) 1 pat (1/4) rp with
    | .error _ => false
    | .ok nt =>
      match simai_pattern_to_int nt with
      | .ok (some c2) => c2 == c
      | _ => false

theorem patternRoundTripCheck_all :
    ∀ c < 14, ∀ s < 8, ∀ e < 8, patternRoundTripCheck c s e = true := by decide

/-- C4: whenever a geometry code `c` decodes against lanes `(s, e)`, the
slide built from the decoded pattern (and reflect position, when present)
is accepted by the slide constructor and re-encodes to exactly `c`.  The
direction-unambiguity hypothesis of the claim is recorded for the only
pattern whose re-encoding consults the lanes' direction (`"^"`); the other
decoded patterns never hit the 180° error. -/
theorem simai_pattern_round_trip (c s e : ℕ) (pat : String) (rp : Option ℤ)
    (hs : s < 8) (he : e < 8)
    (hok : simai_pattern_from_int c (s : ℤ) (e : ℤ) = .ok (pat, rp))
    (hunamb : pat = "^" → |(e : ℤ) - (s : ℤ)| ≠ 4) :
    ∃ nt, SimaiSlideNote.make 1 (s : ℤ) (e : ℤ) 1 pat (1/4) rp = .ok nt ∧
      simai_pattern_to_int nt = .ok (some c) := by
  have hc : c < 14 := simai_pattern_from_int_code_lt c (s : ℤ) (e : ℤ) (pat, rp) hok
  have hB := patternRoundTripCheck_all c hc s hs e he
  rw [patternRoundTripCheck] at hB
  rw [hok] at hB
  simp only [] at hB
  rcases hmk : SimaiSlideNote.make 1 (s : ℤ) (e : ℤ) 1 pat (1/4) rp with msg | nt
  · rw [hmk] at hB
    exact absurd hB (by simp)
  · rw [hmk] at hB
    simp only [] at hB
    refine ⟨nt, rfl, ?_⟩
    rcases hti : simai_pattern_to_int nt with msg2 | oc
    · rw [hti] at hB
      exact absurd hB (by simp)
    · rw [hti] at hB
      rcases oc with _ | c2
      · exact absurd hB (by simp)
      · simp only [beq_iff_eq] at hB
        rw [hB]

/-- Witness for `simai_pattern_round_trip`: code 3 (clockwise arc) at
lanes `(0, 2)` decodes to `"^"` and re-encodes to 3. -/
theorem simai_pattern_round_trip_witness :
    ∃ nt, SimaiSlideNote.make 1 ((0 : ℕ) : ℤ) ((2 : ℕ) : ℤ) 1 "^" (1/4) none = .ok nt ∧
      simai_pattern_to_int nt = .ok (some 3) :=
  simai_pattern_round_trip 3 0 2 "^" none (by norm_num) (by norm_num)
    rfl (fun _ => by decide)

/-! ## `Fraction.limit_denominator` (CPython) and the rest calculator -/

/-- The `while True` loop of CPython's `Fraction.limit_denominator`,
with the state `(p0, q0, p1, q1, n, d)` made explicit.  The divisor `d`
strictly decreases across iterations, so fuel `d + 1` is enough; the
`d = 0` guard corresponds to the `ZeroDivisionError` Python would raise
(never reached when the input's denominator exceeds `max_denominator`). -/
def ldLoop (maxd : ℕ) : ℕ → ℤ → ℤ → ℤ → ℤ → ℤ → ℤ → ℤ × ℤ × ℤ × ℤ
  | 0, p0, q0, p1, q1, _, _ => (p0, q0, p1, q1)
  | fuel + 1, p0, q0, p1, q1, n, d =>
    if d = 0 then (p0, q0, p1, q1)
    else
      let a := Int.fdiv n d
      let q2 := q0 + a * q1
      if (maxd : ℤ) < q2 then (p0, q0, p1, q1)
      else ldLoop maxd fuel p1 q1 (p0 + a * p1) q2 d (n - a * d)

/-- CPython's `Fraction.limit_denominator(maxd)`.  Every call in the
source passes `1000`, so the `max_denominator < 1` `ValueError` guard is
never taken and is omitted.  `Fraction(p, q)` normalisation is rational
division. -/
def limit_denominator (x : ℚ) (maxd : ℕ) : ℚ :=
  if x.den ≤ maxd then x
  else
    let st := ldLoop maxd (x.den + 1) 0 1 1 0 x.num (x.den : ℤ)
    let k := Int.fdiv ((maxd : ℤ) - st.2.1) st.2.2.2
    let bound1 : ℚ := ((st.1 + k * st.2.2.1 : ℤ) : ℚ) / ((st.2.1 + k * st.2.2.2 : ℤ) : ℚ)
    let bound2 : ℚ := ((st.2.2.1 : ℤ) : ℚ) / ((st.2.2.2 : ℤ) : ℚ)
    if |bound2 - x| ≤ |bound1 - x| then bound2 else bound1

theorem limit_denominator_of_den_le (x : ℚ) (maxd : ℕ) (h : x.den ≤ maxd) :
    limit_denominator x maxd = x := by
  unfold limit_denominator
  rw [if_pos h]

theorem mkRat_den_le (n : ℤ) {d : ℕ} (hd : d ≠ 0) : (mkRat n d).den ≤ d := by
  rw [← Rat.normalize_eq_mkRat hd, Rat.normalize_eq hd]
  exact Nat.div_le_self d _

theorem intCast_div_den_le (p q : ℤ) (hq0 : 0 ≤ q) {B : ℕ} (hqB : q ≤ (B : ℤ))
    (hB : 1 ≤ B) : (((p : ℚ)) / ((q : ℚ))).den ≤ B := by
  rcases eq_or_lt_of_le hq0 with hz | hpos
  · rw [← hz, Int.cast_zero, div_zero]
    simpa using hB
  · have hqn : ((q.toNat : ℕ) : ℤ) = q := Int.toNat_of_nonneg hq0
    have hdiv : ((p : ℚ)) / ((q : ℚ)) = mkRat p q.toNat := by
      rw [← Rat.divInt_ofNat, hqn, Rat.divInt_eq_div]
    rw [hdiv]
    have h1 := mkRat_den_le p (d := q.toNat) (by omega)
    omega

theorem ldLoop_q_bounds (maxd : ℕ) :
    ∀ (fuel : ℕ) (p0 q0 p1 q1 n d : ℤ),
      0 ≤ q0 → q0 ≤ (maxd : ℤ) → 0 ≤ q1 → q1 ≤ (maxd : ℤ) → 0 ≤ n → 0 ≤ d →
      0 ≤ (ldLoop maxd fuel p0 q0 p1 q1 n d).2.1 ∧
        (ldLoop maxd fuel p0 q0 p1 q1 n d).2.1 ≤ (maxd : ℤ) ∧
        0 ≤ (ldLoop maxd fuel p0 q0 p1 q1 n d).2.2.2 ∧
        (ldLoop maxd fuel p0 q0 p1 q1 n d).2.2.2 ≤ (maxd : ℤ) := by
  intro fuel
  induction fuel with
  | zero =>
    intro p0 q0 p1 q1 n d h1 h2 h3 h4 _ _
    exact ⟨h1, h2, h3, h4⟩
  | succ f ih =>
    intro p0 q0 p1 q1 n d h1 h2 h3 h4 hn hd
    rw [ldLoop]
    by_cases hdz : d = 0
    · rw [if_pos hdz]
      exact ⟨h1, h2, h3, h4⟩
    · rw [if_neg hdz]
      have hdpos : 0 < d := lt_of_le_of_ne hd (Ne.symm hdz)
      have ha : 0 ≤ Int.fdiv n d := Int.fdiv_nonneg hn hd
      by_cases hq2 : (maxd : ℤ) < q0 + Int.fdiv n d * q1
      · rw [if_pos hq2]
        exact ⟨h1, h2, h3, h4⟩
      · rw [if_neg hq2]
        push_neg at hq2
        have hrem : 0 ≤ n - Int.fdiv n d * d := by
          rw [Int.fdiv_eq_ediv n hd]
          have := Int.ediv_mul_le n hdz
          omega
        exact ih p1 q1 (p0 + Int.fdiv n d * p1) (q0 + Int.fdiv n d * q1) d
          (n - Int.fdiv n d * d) h3 h4 (by positivity) hq2 hd hrem

theorem limit_denominator_den_le (x : ℚ) (hx : 0 ≤ x) :
    (limit_denominator x 1000).den ≤ 1000 := by
  unfold limit_denominator
  by_cases h : x.den ≤ 1000
  · rw [if_pos h]
    exact h
  · rw [if_neg h]
    dsimp only
    have hnum : 0 ≤ x.num := Rat.num_nonneg.mpr hx
    have hden : (0 : ℤ) ≤ (x.den : ℤ) := by positivity
    obtain ⟨hq0, hq0le, hq1, hq1le⟩ :=
      ldLoop_q_bounds 1000 (x.den + 1) 0 1 1 0 x.num (x.den : ℤ)
        (by norm_num) (by norm_num) (by norm_num) (by norm_num) hnum hden
    generalize hst : ldLoop 1000 (x.den + 1) 0 1 1 0 x.num (x.den : ℤ) = st at hq0 hq0le hq1 hq1le ⊢
    obtain ⟨p0, q0, p1, q1⟩ := st
    dsimp only at hq0 hq0le hq1 hq1le ⊢
    split_ifs
    · exact intCast_div_den_le p1 q1 hq1 hq1le (by norm_num)
    · rcases eq_or_lt_of_le hq1 with hz | hq1pos
      · have hkz : Int.fdiv (((1000 : ℕ) : ℤ) - q0) q1 = 0 := by
          rw [← hz, Int.fdiv_zero]
        rw [hkz]
        refine intCast_div_den_le _ _ ?_ ?_ (by norm_num)
        · simpa using hq0
        · simpa using hq0le
      · have hknn : 0 ≤ Int.fdiv (((1000 : ℕ) : ℤ) - q0) q1 :=
          Int.fdiv_nonneg (by push_cast at hq0le ⊢; omega) (le_of_lt hq1pos)
        have hmul : Int.fdiv (((1000 : ℕ) : ℤ) - q0) q1 * q1 ≤ ((1000 : ℕ) : ℤ) - q0 := by
          rw [Int.fdiv_eq_ediv _ (le_of_lt hq1pos)]
          exact Int.ediv_mul_le _ (by omega)
        refine intCast_div_den_le _ _ ?_ ?_ (by norm_num)
        · positivity
        · push_cast at hq0 hq0le hq1 hq1le hmul ⊢
          omega

/-- `simai_get_rest`.  `math.modf` splits off the truncated whole part;
the fractional remainder goes through `Fraction(...).limit_denominator(1000)`. -/
def simai_get_rest (current_measure next_measure : ℚ) :
    Except String (Option (ℤ × ℕ × ℤ)) :=
  if next_measure < current_measure then
    .error "Current measure is greater than next."
  else if next_measure = current_measure then .ok none
  else
    let difference := next_measure - current_measure
    let whole := pyInt difference
    let decimal_fraction := limit_denominator (difference - (whole : ℚ)) 1000
    .ok (some (whole, decimal_fraction.den, decimal_fraction.num))

/-- C5: `simai_get_rest` raises when `next < current`, returns no rest at
equality, and otherwise returns `(whole, divisor, amount)` with `whole`
the integer part of `next - current` and `amount/divisor` the fractional
remainder as a reduced fraction with denominator at most 1000 (exactly
the remainder whenever that is representable with denominator ≤ 1000);
in particular `rest(1.0, 1.5) = (0, 2, 1)` and `rest(1.0, 2.0) = (1, 1, 0)`. -/
theorem simai_get_rest_spec :
    (∀ c n : ℚ, n < c →
      simai_get_rest c n = .error "Current measure is greater than next.") ∧
    (∀ c n : ℚ, n = c → simai_get_rest c n = .ok none) ∧
    (∀ c n : ℚ, c < n →
      ∃ (d : ℕ) (a : ℤ),
        simai_get_rest c n = .ok (some (⌊n - c⌋, d, a)) ∧ d ≤ 1000 ∧
          a.natAbs.Coprime d ∧
          ((n - c - (⌊n - c⌋ : ℚ)).den ≤ 1000 →
            (a : ℚ) / (d : ℚ) = n - c - (⌊n - c⌋ : ℚ))) ∧
    simai_get_rest 1 (3/2) = .ok (some (0, 2, 1)) ∧
    simai_get_rest 1 2 = .ok (some (1, 1, 0)) := by
  refine ⟨?_, ?_, ?_, rfl, rfl⟩
  · intro c n hlt
    unfold simai_get_rest
    rw [if_pos hlt]
  · intro c n heq
    unfold simai_get_rest
    rw [if_neg (not_lt.mpr (ge_of_eq heq)), if_pos heq]
  · intro c n hcn
    have hne : ¬ n < c := not_lt.mpr (le_of_lt hcn)
    have hne2 : ¬ n = c := ne_of_gt hcn
    unfold simai_get_rest
    rw [if_neg hne, if_neg hne2]
    dsimp only
    have hpy : pyInt (n - c) = ⌊n - c⌋ := by
      unfold pyInt
      rw [if_neg (by simp [not_lt]; linarith)]
    rw [hpy]
    have hfrac0 : (0 : ℚ) ≤ n - c - (⌊n - c⌋ : ℚ) := by
      have := Int.floor_le (n - c)
      linarith
    refine ⟨(limit_denominator (n - c - (⌊n - c⌋ : ℚ)) 1000).den,
      (limit_denominator (n - c - (⌊n - c⌋ : ℚ)) 1000).num, rfl, ?_, ?_, ?_⟩
    · exact limit_denominator_den_le _ hfrac0
    · exact (limit_denominator _ 1000).reduced
    · intro hd
      rw [limit_denominator_of_den_le _ _ hd]
      exact Rat.num_div_den _

/-- Witness for `simai_get_rest_spec` at concrete inputs. -/
theorem simai_get_rest_spec_witness :
    simai_get_rest 2 1 = .error "Current measure is greater than next." ∧
      simai_get_rest (3/2) (3/2) = .ok none ∧
      ∃ (d : ℕ) (a : ℤ),
        simai_get_rest 1 (7/4) = .ok (some (⌊(7/4 : ℚ) - 1⌋, d, a)) ∧ d ≤ 1000 ∧
          a.natAbs.Coprime d ∧
          (((7/4 : ℚ) - 1 - (⌊(7/4 : ℚ) - 1⌋ : ℚ)).den ≤ 1000 →
            (a : ℚ) / (d : ℚ) = (7/4 : ℚ) - 1 - (⌊(7/4 : ℚ) - 1⌋ : ℚ)) :=
  ⟨simai_get_rest_spec.1 2 1 (by norm_num),
    simai_get_rest_spec.2.1 (3/2) (3/2) rfl,
    simai_get_rest_spec.2.2.1 1 (7/4) (by norm_num)⟩

/-! ## `SimaiChart`: the mutable chart aggregate -/

structure SimaiChart where
  notes : List SimaiNote
  bpms : List SimaiBPM
deriving DecidableEq

def SimaiChart.add_tap (c : SimaiChart) (measure : ℚ) (position : ℤ)
    (is_break is_star is_ex : Bool) : SimaiChart :=
  ⟨c.notes ++ [SimaiTapNote.make measure position is_break is_star is_ex], c.bpms⟩

def SimaiChart.add_hold (c : SimaiChart) (measure : ℚ) (position : ℤ)
    (duration : ℚ) (is_ex : Bool) : SimaiChart :=
  ⟨c.notes ++ [SimaiHoldNote.make measure position duration is_ex], c.bpms⟩

def SimaiChart.add_slide (c : SimaiChart) (measure : ℚ)
    (start_position end_position : ℤ) (duration : ℚ) (pattern : String)
    (delay : ℚ) (reflect_position : Option ℤ) : Except String SimaiChart :=
  match SimaiSlideNote.make measure start_position end_position duration
      pattern delay reflect_position with
  | .error e => .error e
  | .ok nt => .ok ⟨c.notes ++ [nt], c.bpms⟩

def SimaiChart.add_touch_tap (c : SimaiChart) (measure : ℚ) (position : ℤ)
    (zone : String) (is_firework : Bool) : SimaiChart :=
  ⟨c.notes ++ [SimaiTouchTapNote.make measure position zone is_firework], c.bpms⟩

def SimaiChart.add_touch_hold (c : SimaiChart) (measure : ℚ) (position : ℤ)
    (zone : String) (duration : ℚ) (is_firework : Bool) : SimaiChart :=
  ⟨c.notes ++ [SimaiTouchHoldNote.make measure position zone duration is_firework],
   c.bpms⟩

def SimaiChart.set_bpm (c : SimaiChart) (measure bpm : ℚ) :
    Except String SimaiChart :=
  match SimaiBPM.make measure bpm with
  | .error e => .error e
  | .ok ev => .ok ⟨c.notes, c.bpms ++ [ev]⟩

/-- Deduplication used to model Python `list(set(xs))` (the arbitrary set
order is irrelevant: a sort follows immediately). -/
def dedupQ : List ℚ → List ℚ
  | [] => []
  | x :: xs => if x ∈ xs then dedupQ xs else x :: dedupQ xs

def insertQ (x : ℚ) : List ℚ → List ℚ
  | [] => [x]
  | y :: ys => if y < x then y :: insertQ x ys else x :: y :: ys

def sortQ : List ℚ → List ℚ
  | [] => []
  | x :: xs => insertQ x (sortQ xs)

/-- The scan-with-break of `SimaiChart.get_bpm`. -/
def gbLoop (measure : ℚ) : List ℚ → ℚ → ℚ
  | [], prev => prev
  | bm :: rest, prev => if bm ≤ measure then gbLoop measure rest bm else prev

def SimaiChart.get_bpm (c : SimaiChart) (measure : ℚ) : Option ℚ :=
  let bpm_measures := sortQ (dedupQ (c.bpms.map (fun b => b.measure)))
  let previous_measure := gbLoop measure bpm_measures 0
  match (c.bpms.filter (fun b => decide (b.measure = previous_measure))).map
      (fun b => b.bpm) with
  | [] => none
  | b :: _ => some b

/-- `SimaiChart.offset`. -/
def SimaiChart.offset (c : SimaiChart) (off : ℚ) : SimaiChart :=
  ⟨c.notes.map (fun nt =>
      ⟨round4 (nt.measure + off), nt.position, nt.note_type, nt.duration,
       nt.end_position, nt.pattern, nt.delay, nt.reflect_position,
       nt.is_firework, nt.zone⟩),
   c.bpms.map (fun ev =>
      if ev.measure = 1 then ev else ⟨round4 (ev.measure + off), ev.bpm⟩)⟩

/-! ### Hold/slide insertion validation (C2) -/

theorem pyRound_nonpos (x : ℚ) (hx : x ≤ 0) : pyRound x ≤ 0 := by
  unfold pyRound
  dsimp only
  have hf : ⌊x⌋ ≤ 0 := by
    have h1 : ((⌊x⌋ : ℤ) : ℚ) ≤ x := Int.floor_le x
    exact_mod_cast h1.trans hx
  split_ifs with h1 h2 h3
  · exact hf
  · have hlt : ((⌊x⌋ : ℤ) : ℚ) < -(1/2) := by linarith
    have : ((⌊x⌋ : ℤ) : ℚ) < ((-1 : ℤ) : ℚ) + 1 := by push_cast; linarith
    have h4 : ⌊x⌋ < -1 + 1 := by exact_mod_cast this
    omega
  · exact hf
  · have heq : x - ((⌊x⌋ : ℤ) : ℚ) = 1/2 := le_antisymm (not_lt.mp h2) (not_lt.mp h1)
    have hlt : ((⌊x⌋ : ℤ) : ℚ) ≤ -(1/2) := by linarith
    have : ((⌊x⌋ : ℤ) : ℚ) < 0 := by linarith
    have h4 : ⌊x⌋ < 0 := by exact_mod_cast this
    omega

theorem round4_nonpos (x : ℚ) (hx : x ≤ 0) : round4 x ≤ 0 := by
  have h1 : (10000 : ℚ) * x ≤ 0 := by nlinarith
  have h2 := pyRound_nonpos (10000 * x) h1
  have h3 : ((pyRound (10000 * x) : ℤ) : ℚ) ≤ 0 := by exact_mod_cast h2
  unfold round4
  exact div_nonpos_iff.mpr (Or.inr ⟨h3, by norm_num⟩)

/-- C2 (counterexample to the claim as stated): `add_hold` performs no
duration validation at all — a hold with duration `-1` is appended to the
chart unchanged. -/
theorem c2_counterexample :
    (SimaiChart.add_hold ⟨[], []⟩ 1 0 (-1) false).notes =
        [SimaiHoldNote.make 1 0 (-1) false] ∧
      (SimaiHoldNote.make 1 0 (-1) false).duration = -1 ∧
      (SimaiHoldNote.make 1 0 (-1) false).note_type = NoteType.hold :=
  ⟨rfl, rfl, rfl⟩

/-- C2 (amended): `add_slide` rejects a slide whose rounded duration is
non-positive or whose rounded delay is negative (so in particular every
non-positive requested duration is rejected), and the error leaves the
chart untouched; `add_hold`, by contrast, validates nothing and always
appends the hold — even with non-positive duration.  (A requested delay
in `(-0.00005, 0)` rounds to `0` and is accepted.) -/
theorem add_hold_add_slide_validation :
    (∀ (c : SimaiChart) (m : ℚ) (p : ℤ) (d : ℚ) (ex : Bool),
      (c.add_hold m p d ex).notes = c.notes ++ [SimaiHoldNote.make m p d ex] ∧
        (c.add_hold m p d ex).bpms = c.bpms) ∧
    (∀ (c : SimaiChart) (m : ℚ) (sp ep : ℤ) (d : ℚ) (pat : String) (de : ℚ)
        (rp : Option ℤ),
      (round4 d ≤ 0 →
        c.add_slide m sp ep d pat de rp = .error "Duration is not positive") ∧
      (d ≤ 0 →
        c.add_slide m sp ep d pat de rp = .error "Duration is not positive") ∧
      (0 < round4 d → round4 de < 0 →
        c.add_slide m sp ep d pat de rp = .error "Delay is negative")) := by
  constructor
  · intro c m p d ex
    exact ⟨rfl, rfl⟩
  · intro c m sp ep d pat de rp
    refine ⟨?_, ?_, ?_⟩
    · intro hd
      unfold SimaiChart.add_slide SimaiSlideNote.make
      rw [if_pos hd]
    · intro hd
      unfold SimaiChart.add_slide SimaiSlideNote.make
      rw [if_pos (round4_nonpos d hd)]
    · intro hd hde
      unfold SimaiChart.add_slide SimaiSlideNote.make
      rw [if_neg (not_le.mpr hd), if_pos hde]

/-- Witness for `add_hold_add_slide_validation` at concrete inputs. -/
theorem add_hold_add_slide_validation_witness :
    ((SimaiChart.mk [] []).add_hold 1 0 (1/4) false).notes =
        ([] : List SimaiNote) ++ [SimaiHoldNote.make 1 0 (1/4) false] ∧
      (SimaiChart.mk [] []).add_slide 1 0 4 0 "-" (1/4) none =
        .error "Duration is not positive" ∧
      (SimaiChart.mk [] []).add_slide 1 0 4 1 "-" (-1) none =
        .error "Delay is negative" :=
  ⟨((add_hold_add_slide_validation.1 ⟨[], []⟩ 1 0 (1/4) false).1),
    (add_hold_add_slide_validation.2 ⟨[], []⟩ 1 0 4 0 "-" (1/4) none).2.1 (by norm_num),
    (add_hold_add_slide_validation.2 ⟨[], []⟩ 1 0 4 1 "-" (-1) none).2.2
      (by norm_num [round4, pyRound]) (by norm_num [round4, pyRound])⟩

/-! ### Chart time shift (C7) -/

/-- C7: `offset` rewrites every note's measure to
`round4(measure + offset)` leaving all other note fields unchanged, and
does the same for every tempo marker except one sitting at exactly
measure 1.0, which is left entirely unchanged. -/
theorem offset_spec (c : SimaiChart) (off : ℚ) :
    List.Forall₂ (fun nt nt2 : SimaiNote =>
        nt2.measure = round4 (nt.measure + off) ∧ nt2.position = nt.position ∧
        nt2.note_type = nt.note_type ∧ nt2.duration = nt.duration ∧
        nt2.end_position = nt.end_position ∧ nt2.pattern = nt.pattern ∧
        nt2.delay = nt.delay ∧ nt2.reflect_position = nt.reflect_position ∧
        nt2.is_firework = nt.is_firework ∧ nt2.zone = nt.zone)
      c.notes (c.offset off).notes ∧
    List.Forall₂ (fun ev ev2 : SimaiBPM =>
        (ev.measure = 1 → ev2 = ev) ∧
        (ev.measure ≠ 1 →
          ev2.measure = round4 (ev.measure + off) ∧ ev2.bpm = ev.bpm))
      c.bpms (c.offset off).bpms := by
  constructor
  · rw [SimaiChart.offset]
    dsimp only
    rw [List.forall₂_map_right_iff, List.forall₂_same]
    intro nt _
    exact ⟨rfl, rfl, rfl, rfl, rfl, rfl, rfl, rfl, rfl, rfl⟩
  · rw [SimaiChart.offset]
    dsimp only
    rw [List.forall₂_map_right_iff, List.forall₂_same]
    intro ev _
    by_cases hev : ev.measure = 1
    · refine ⟨fun _ => ?_, fun hne => absurd hev hne⟩
      rw [if_pos hev]
    · refine ⟨fun h1 => absurd h1 hev, fun _ => ?_⟩
      rw [if_neg hev]
      exact ⟨rfl, rfl⟩

/-- Witness for `offset_spec` at a concrete chart. -/
theorem offset_spec_witness :
    List.Forall₂ (fun nt nt2 : SimaiNote =>
        nt2.measure = round4 (nt.measure + 1/2) ∧ nt2.position = nt.position ∧
        nt2.note_type = nt.note_type ∧ nt2.duration = nt.duration ∧
        nt2.end_position = nt.end_position ∧ nt2.pattern = nt.pattern ∧
        nt2.delay = nt.delay ∧ nt2.reflect_position = nt.reflect_position ∧
        nt2.is_firework = nt.is_firework ∧ nt2.zone = nt.zone)
      (SimaiChart.mk [SimaiTapNote.make 2 0 false false false]
        [⟨1, 120⟩, ⟨2, 60⟩]).notes
      ((SimaiChart.mk [SimaiTapNote.make 2 0 false false false]
        [⟨1, 120⟩, ⟨2, 60⟩]).offset (1/2)).notes ∧
    List.Forall₂ (fun ev ev2 : SimaiBPM =>
        (ev.measure = 1 → ev2 = ev) ∧
        (ev.measure ≠ 1 →
          ev2.measure = round4 (ev.measure + 1/2) ∧ ev2.bpm = ev.bpm))
      (SimaiChart.mk [SimaiTapNote.make 2 0 false false false]
        [⟨1, 120⟩, ⟨2, 60⟩]).bpms
      ((SimaiChart.mk [SimaiTapNote.make 2 0 false false false]
        [⟨1, 120⟩, ⟨2, 60⟩]).offset (1/2)).bpms :=
  offset_spec (SimaiChart.mk [SimaiTapNote.make 2 0 false false false]
    [⟨1, 120⟩, ⟨2, 60⟩]) (1/2)

/-! ### Round trip of the time converter (C8, amended) -/

/-- Walking hypotheses for the breakpoint tail relative to an anchor
`(pm, pb)`: strictly increasing measures bounded by 1000, tempos in
`[60, 240]`, and each inter-breakpoint gap longer than 0.0005 seconds. -/
def WalkOK : ℚ → ℚ → List (ℚ × ℚ) → Prop
  | _, _, [] => True
  | pm, pb, (cm, cb) :: rest =>
    pm < cm ∧ cm ≤ 1000 ∧ 60 ≤ cb ∧ cb ≤ 240 ∧
      1/2000 < 60 * 4 * (cm - pm) / pb ∧ WalkOK cm cb rest

/-- Anchor invariant carried through the two walking loops: magnitude
bounds for the accumulated time, plus either the start-segment equality
(anchor at or before measure 1, time on the first tempo's line) or the
post-start lower bound `pm - 1 ≤ pt`. -/
def AnchorInv (pm pb pt : ℚ) (l : List (ℚ × ℚ)) : Prop :=
  0 ≤ pm ∧ pm ≤ 1000 ∧ 60 ≤ pb ∧ pb ≤ 240 ∧ |pt| ≤ 4 * (1 + pm) ∧
    ((pm ≤ 1 ∧ pt = 60 * 4 * (pm - 1) / pb ∧ ∀ x ∈ l, 1 < x.1) ∨
      (1 ≤ pm ∧ pm - 1 ≤ pt))

theorem pyIsClose_self (a : ℚ) : pyIsClose a a = true := by
  unfold pyIsClose
  simp only [sub_self, abs_zero, decide_eq_true_eq]
  positivity

theorem abs_le_of_pyIsClose {a b : ℚ} (h : pyIsClose a b = true)
    (ha : |a| ≤ 500000) (hb : |b| ≤ 500000) : |a - b| ≤ 1/2000 := by
  unfold pyIsClose at h
  simp only [decide_eq_true_eq] at h
  refine h.trans (max_le ?_ le_rfl)
  rcases max_cases |a| |b| with ⟨he, _⟩ | ⟨he, _⟩ <;> rw [he] <;> linarith

theorem pyIsClose_eq_false {a b : ℚ} (ha : |a| ≤ 500000) (hb : |b| ≤ 500000)
    (h : 1/2000 < |a - b|) : pyIsClose a b = false := by
  unfold pyIsClose
  simp only [decide_eq_false_iff_not, not_le]
  refine lt_of_le_of_lt (max_le ?_ le_rfl) h
  rcases max_cases |a| |b| with ⟨he, _⟩ | ⟨he, _⟩ <;> rw [he] <;> linarith

theorem lt_abs_of_pyIsClose_false {a b : ℚ} (h : pyIsClose a b = false) :
    1/2000 < |a - b| := by
  unfold pyIsClose at h
  simp only [decide_eq_false_iff_not, not_le] at h
  exact lt_of_le_of_lt (le_max_right _ _) h

theorem div240_ge (x pb : ℚ) (hx : 0 ≤ x) (hpb : 0 < pb) (hpb2 : pb ≤ 240) :
    x ≤ 60 * 4 * x / pb := by
  rw [le_div_iff hpb]
  nlinarith

theorem div240_le (x pb : ℚ) (hx : 0 ≤ x) (hpb : 60 ≤ pb) :
    60 * 4 * x / pb ≤ 4 * x := by
  rw [div_le_iff (by linarith)]
  nlinarith

theorem abs_div240_le (y pb : ℚ) (hpb : 60 ≤ pb) :
    |60 * 4 * y / pb| ≤ 4 * |y| := by
  rw [abs_div, abs_of_pos (by linarith : (0 : ℚ) < pb)]
  have h1 : |60 * 4 * y| = 60 * 4 * |y| := by
    rw [abs_mul]
    norm_num
  rw [h1]
  exact div240_le |y| pb (abs_nonneg y) hpb

theorem walkOK_strictInc (l : List (ℚ × ℚ)) :
    ∀ pm pb, WalkOK pm pb l → (∀ y ∈ l, pm < y.1) ∧ StrictIncPairs l := by
  induction l with
  | nil => intro pm pb _; exact ⟨by simp, trivial⟩
  | cons hd rest ih =>
    intro pm pb hw
    obtain ⟨cm, cb⟩ := hd
    obtain ⟨h1, _, _, _, _, hw2⟩ := hw
    obtain ⟨ihall, ihsip⟩ := ih cm cb hw2
    refine ⟨?_, ?_, ihsip⟩
    · intro y hy
      rcases List.mem_cons.mp hy with rfl | hmem
      · exact h1
      · exact lt_trans h1 (ihall y hmem)
    · exact ihall

theorem walkOK_tempos (l : List (ℚ × ℚ)) :
    ∀ pm pb, WalkOK pm pb l → ∀ x ∈ l, 60 ≤ x.2 := by
  induction l with
  | nil => intro pm pb _ x hx; simp at hx
  | cons hd rest ih =>
    intro pm pb hw x hx
    obtain ⟨cm, cb⟩ := hd
    obtain ⟨_, _, hcb1, _, _, hw2⟩ := hw
    rcases List.mem_cons.mp hx with rfl | hmem
    · exact hcb1
    · exact ih cm cb hw2 x hmem

theorem anchorInv_step (pm pb pt cm cb : ℚ) (l : List (ℚ × ℚ))
    (hA : AnchorInv pm pb pt ((cm, cb) :: l))
    (hW : WalkOK pm pb ((cm, cb) :: l)) :
    AnchorInv cm cb (pt + 60 * 4 * (cm - pm) / pb) l := by
  obtain ⟨hpm0, hpm1, hpb1, hpb2, hpt, hbr⟩ := hA
  obtain ⟨hlt, hcm1, hcb1, hcb2, hgap, hw2⟩ := hW
  have hpbpos : (0 : ℚ) < pb := by linarith
  have hstep_le : 60 * 4 * (cm - pm) / pb ≤ 4 * (cm - pm) :=
    div240_le (cm - pm) pb (by linarith) hpb1
  have hstep_ge : cm - pm ≤ 60 * 4 * (cm - pm) / pb :=
    div240_ge (cm - pm) pb (by linarith) hpbpos hpb2
  refine ⟨by linarith, hcm1, hcb1, hcb2, ?_, Or.inr ?_⟩
  · have h1 : |pt + 60 * 4 * (cm - pm) / pb| ≤ |pt| + |60 * 4 * (cm - pm) / pb| :=
      abs_add _ _
    have h2 : |60 * 4 * (cm - pm) / pb| ≤ 4 * |cm - pm| := abs_div240_le _ _ hpb1
    have h3 : |cm - pm| = cm - pm := abs_of_pos (by linarith)
    rw [h3] at h2
    calc |pt + 60 * 4 * (cm - pm) / pb| ≤ |pt| + |60 * 4 * (cm - pm) / pb| := h1
      _ ≤ 4 * (1 + pm) + 4 * (cm - pm) := by linarith
      _ = 4 * (1 + cm) := by ring
  · rcases hbr with ⟨hpmle, hpteq, hall⟩ | ⟨hpmge, hptge⟩
    · have hcm : 1 < cm := hall (cm, cb) (List.mem_cons_self _ _)
      constructor
      · linarith
      · have : pt + 60 * 4 * (cm - pm) / pb = 60 * 4 * (cm - 1) / pb := by
          rw [hpteq]
          field_simp
          ring
        rw [this]
        exact div240_ge (cm - 1) pb (by linarith) hpbpos hpb2
    · exact ⟨by linarith, by linarith⟩

theorem m2sWalk_gap (m : ℚ) (l : List (ℚ × ℚ)) :
    ∀ pm pb pt, WalkOK pm pb l → 0 < pb → pb ≤ 240 → 1/2000 < m - pm →
      pt + 1/2000 < m2sWalk m l pm pb pt := by
  induction l with
  | nil =>
    intro pm pb pt _ hpb hpb2 hm
    rw [m2sWalk]
    have := div240_ge (m - pm) pb (by linarith) hpb hpb2
    linarith
  | cons hd rest ih =>
    intro pm pb pt hw hpb hpb2 hm
    obtain ⟨cm, cb⟩ := hd
    obtain ⟨hlt, hcm1, hcb1, hcb2, hgap, hw2⟩ := hw
    rw [m2sWalk]
    by_cases hcl : pyIsClose cm m = true
    · rw [if_pos hcl]
      linarith
    · rw [if_neg hcl]
      by_cases hbm : m < cm
      · rw [if_pos hbm]
        have := div240_ge (m - pm) pb (by linarith) hpb hpb2
        linarith
      · rw [if_neg hbm]
        have habs := lt_abs_of_pyIsClose_false (Bool.eq_false_iff.mpr hcl)
        have hcmle : cm ≤ m := not_lt.mp hbm
        have hmc : 1/2000 < m - cm := by
          rw [abs_sub_comm] at habs
          rwa [abs_of_nonneg (by linarith)] at habs
        have hrec := ih cm cb (pt + 60 * 4 * (cm - pm) / pb) hw2
          (by linarith) hcb2 hmc
        linarith

theorem m2sWalk_pos (m : ℚ) (l : List (ℚ × ℚ)) :
    ∀ pm pb pt, AnchorInv pm pb pt l → WalkOK pm pb l → pm ≤ m → 1 < m →
      0 < m2sWalk m l pm pb pt := by
  induction l with
  | nil =>
    intro pm pb pt hA _ hpmm hm
    obtain ⟨hpm0, hpm1, hpb1, hpb2, hpt, hbr⟩ := hA
    have hpbpos : (0 : ℚ) < pb := by linarith
    rw [m2sWalk]
    rcases hbr with ⟨hpmle, hpteq, _⟩ | ⟨hpmge, hptge⟩
    · have heq : pt + 60 * 4 * (m - pm) / pb = 60 * 4 * (m - 1) / pb := by
        rw [hpteq]
        field_simp
        ring
      rw [heq]
      exact div_pos (by linarith) hpbpos
    · have := div240_ge (m - pm) pb (by linarith) hpbpos hpb2
      linarith
  | cons hd rest ih =>
    intro pm pb pt hA hW hpmm hm
    obtain ⟨cm, cb⟩ := hd
    have hA2 := anchorInv_step pm pb pt cm cb rest hA hW
    obtain ⟨hpm0, hpm1, hpb1, hpb2, hpt, hbr⟩ := hA
    obtain ⟨hlt, hcm1, hcb1, hcb2, hgap, hw2⟩ := hW
    have hpbpos : (0 : ℚ) < pb := by linarith
    rw [m2sWalk]
    have hctpos : 0 < pt + 60 * 4 * (cm - pm) / pb := by
      rcases hbr with ⟨hpmle, hpteq, hall⟩ | ⟨hpmge, hptge⟩
      · have hcmgt : 1 < cm := hall (cm, cb) (List.mem_cons_self _ _)
        have heq : pt + 60 * 4 * (cm - pm) / pb = 60 * 4 * (cm - 1) / pb := by
          rw [hpteq]
          field_simp
          ring
        rw [heq]
        exact div_pos (by linarith) hpbpos
      · have := div240_ge (cm - pm) pb (by linarith) hpbpos hpb2
        linarith
    by_cases hcl : pyIsClose cm m = true
    · rw [if_pos hcl]
      exact hctpos
    · rw [if_neg hcl]
      by_cases hbm : m < cm
      · rw [if_pos hbm]
        rcases hbr with ⟨hpmle, hpteq, _⟩ | ⟨hpmge, hptge⟩
        · have heq : pt + 60 * 4 * (m - pm) / pb = 60 * 4 * (m - 1) / pb := by
            rw [hpteq]
            field_simp
            ring
          rw [heq]
          exact div_pos (by linarith) hpbpos
        · have := div240_ge (m - pm) pb (by linarith) hpbpos hpb2
          linarith
      · rw [if_neg hbm]
        exact ih cm cb _ hA2 hw2 (not_lt.mp hbm) hm

theorem m2sWalk_ub (m : ℚ) (hm1 : 0 ≤ m) (hm2 : m ≤ 1000) (l : List (ℚ × ℚ)) :
    ∀ pm pb pt, 0 ≤ pm → pm ≤ 1000 → 60 ≤ pb → pb ≤ 240 →
      |pt| ≤ 4 * (1 + pm) → WalkOK pm pb l →
      |m2sWalk m l pm pb pt| ≤ 10000 := by
  induction l with
  | nil =>
    intro pm pb pt hpm0 hpm1 hpb1 hpb2 hpt _
    rw [m2sWalk]
    have h1 := abs_add pt (60 * 4 * (m - pm) / pb)
    have h2 := abs_div240_le (m - pm) pb hpb1
    have h3 : |m - pm| ≤ 1000 := abs_le.mpr ⟨by linarith, by linarith⟩
    linarith
  | cons hd rest ih =>
    intro pm pb pt hpm0 hpm1 hpb1 hpb2 hpt hW
    obtain ⟨cm, cb⟩ := hd
    obtain ⟨hlt, hcm1, hcb1, hcb2, hgap, hw2⟩ := hW
    have hctb : |pt + 60 * 4 * (cm - pm) / pb| ≤ 4 * (1 + cm) := by
      have h1 := abs_add pt (60 * 4 * (cm - pm) / pb)
      have h2 := abs_div240_le (cm - pm) pb hpb1
      have h3 : |cm - pm| = cm - pm := abs_of_pos (by linarith)
      rw [h3] at h2
      linarith
    rw [m2sWalk]
    by_cases hcl : pyIsClose cm m = true
    · rw [if_pos hcl]
      linarith
    · rw [if_neg hcl]
      by_cases hbm : m < cm
      · rw [if_pos hbm]
        have h1 := abs_add pt (60 * 4 * (m - pm) / pb)
        have h2 := abs_div240_le (m - pm) pb hpb1
        have h3 : |m - pm| ≤ 1000 := abs_le.mpr ⟨by linarith, by linarith⟩
        linarith
      · rw [if_neg hbm]
        exact ih cm cb _ (by linarith) hcm1 hcb1 hcb2 hctb hw2

theorem roundTripLoop (m : ℚ) (hm0 : 1 ≤ m) (hm2 : m ≤ 1000) (l : List (ℚ × ℚ)) :
    ∀ pm pb pt, AnchorInv pm pb pt l → WalkOK pm pb l → pm ≤ m →
      |s2mWalk (m2sWalk m l pm pb pt) l pm pb pt - m| ≤ 1/2000 := by
  induction l with
  | nil =>
    intro pm pb pt hA _ _
    obtain ⟨hpm0, hpm1, hpb1, hpb2, hpt, hbr⟩ := hA
    have hpbne : pb ≠ 0 := (show (0 : ℚ) < pb by linarith).ne'
    rw [m2sWalk, s2mWalk]
    have heq : pm + (pt + 60 * 4 * (m - pm) / pb - pt) * pb / (60 * 4) = m := by
      field_simp
      ring
    rw [heq, sub_self, abs_zero]
    norm_num
  | cons hd rest ih =>
    intro pm pb pt hA hW hpmm
    obtain ⟨cm, cb⟩ := hd
    have hA2 := anchorInv_step pm pb pt cm cb rest hA hW
    have hctb : |pt + 60 * 4 * (cm - pm) / pb| ≤ 4 * (1 + cm) := hA2.2.2.2.2.1
    obtain ⟨hpm0, hpm1, hpb1, hpb2, hpt, hbr⟩ := hA
    obtain ⟨hlt, hcm1, hcb1, hcb2, hgap, hw2⟩ := hW
    have hpbpos : (0 : ℚ) < pb := by linarith
    have hpbne : pb ≠ 0 := hpbpos.ne'
    have hcteq : pt + 60 * (cm - pm) * 4 / pb = pt + 60 * 4 * (cm - pm) / pb := by
      ring
    rw [m2sWalk, s2mWalk, hcteq]
    by_cases hcl : pyIsClose cm m = true
    · rw [if_pos hcl, if_pos (pyIsClose_self _)]
      have h1 : |cm| ≤ 500000 := by
        rw [abs_of_pos (by linarith)]
        linarith
      have h2 : |m| ≤ 500000 := by
        rw [abs_of_pos (by linarith)]
        linarith
      exact abs_le_of_pyIsClose hcl h1 h2
    · rw [if_neg hcl]
      have habs := lt_abs_of_pyIsClose_false (Bool.eq_false_iff.mpr hcl)
      by_cases hbm : m < cm
      · rw [if_pos hbm]
        have hmc : 1/2000 < cm - m := by
          rwa [abs_of_pos (by linarith)] at habs
        have hsub : (pt + 60 * 4 * (cm - pm) / pb) -
            (pt + 60 * 4 * (m - pm) / pb) = 60 * 4 * (cm - m) / pb := by
          field_simp
          ring
        have hstep := div240_ge (cm - m) pb (by linarith) hpbpos hpb2
        have hdiff : 1/2000 < (pt + 60 * 4 * (cm - pm) / pb) -
            (pt + 60 * 4 * (m - pm) / pb) := by
          rw [hsub]
          linarith
        have htb : |pt + 60 * 4 * (m - pm) / pb| ≤ 10000 := by
          have h1 := abs_add pt (60 * 4 * (m - pm) / pb)
          have h2 := abs_div240_le (m - pm) pb hpb1
          have h3 : |m - pm| ≤ 1000 := abs_le.mpr ⟨by linarith, by linarith⟩
          linarith
        have hctb2 : |pt + 60 * 4 * (cm - pm) / pb| ≤ 10000 := by linarith
        have hclf : pyIsClose (pt + 60 * 4 * (cm - pm) / pb)
            (pt + 60 * 4 * (m - pm) / pb) = false := by
          apply pyIsClose_eq_false (by linarith) (by linarith)
          rw [abs_of_pos (by linarith)]
          exact hdiff
        rw [if_neg (by simp [hclf]), if_pos (by linarith)]
        have heq : pm + (pt + 60 * 4 * (m - pm) / pb - pt) * pb / (60 * 4) = m := by
          field_simp
          ring
        rw [heq, sub_self, abs_zero]
        norm_num
      · rw [if_neg hbm]
        have hcmle : cm ≤ m := not_lt.mp hbm
        have hmc : 1/2000 < m - cm := by
          rw [abs_sub_comm] at habs
          rwa [abs_of_nonneg (by linarith)] at habs
        have hgap2 := m2sWalk_gap m rest cm cb (pt + 60 * 4 * (cm - pm) / pb)
          hw2 (by linarith) hcb2 hmc
        have hctb2 : |pt + 60 * 4 * (cm - pm) / pb| ≤ 10000 := by linarith
        have htb := m2sWalk_ub m (by linarith) hm2 rest cm cb
          (pt + 60 * 4 * (cm - pm) / pb) (by linarith) hcm1 hcb1 hcb2 hctb hw2
        have hclf : pyIsClose (pt + 60 * 4 * (cm - pm) / pb)
            (m2sWalk m rest cm cb (pt + 60 * 4 * (cm - pm) / pb)) = false := by
          apply pyIsClose_eq_false (by linarith) (by linarith)
          rw [abs_sub_comm, abs_of_pos (by linarith)]
          linarith
        rw [if_neg (by simp [hclf]), if_neg (not_lt.mpr (by linarith))]
        exact ih cm cb _ hA2 hw2 hcmle

/-- C8 (amended): the measure→second→measure round trip is within 0.0005
for breakpoint lists that are strictly increasing with exactly one
breakpoint at or before measure 1 (the head, in `[0, 1]`), tempos in
`[60, 240]`, measures at most 1000, consecutive breakpoints more than
0.0005 seconds apart, and query measures in `[1, 1000]`.  (As stated over
all valid lists the claim fails — see the counterexample: the 0.0005-second
snap tolerance can correspond to an arbitrarily large measure interval.) -/
theorem measure_second_round_trip (m1 b1 : ℚ) (rest : List (ℚ × ℚ)) (m : ℚ)
    (hm10 : 0 ≤ m1) (hm11 : m1 ≤ 1) (hb1 : 60 ≤ b1) (hb12 : b1 ≤ 240)
    (hW : WalkOK m1 b1 rest) (htail : ∀ x ∈ rest, 1 < x.1)
    (hm : 1 ≤ m) (hm2 : m ≤ 1000) :
    ∃ t mr, measure_to_second m ((m1, b1) :: rest) = ((m1, b1) :: rest, .ok t) ∧
      second_to_measure t ((m1, b1) :: rest) = ((m1, b1) :: rest, .ok mr) ∧
      |mr - m| ≤ 1/2000 := by
  have hsip : StrictIncPairs ((m1, b1) :: rest) := by
    obtain ⟨hall, hsipr⟩ := walkOK_strictInc rest m1 b1 hW
    exact ⟨hall, hsipr⟩
  have hsort : sortPairs ((m1, b1) :: rest) = (m1, b1) :: rest :=
    sortPairs_eq_self _ hsip
  have hany : ((m1, b1) :: rest).any
      (fun x => decide (0 ≤ x.1) && decide (x.1 ≤ 1)) = true := by
    simp only [List.any_cons, Bool.or_eq_true, Bool.and_eq_true, decide_eq_true_eq]
    exact Or.inl ⟨hm10, hm11⟩
  have hchk : check_bpms ((m1, b1) :: rest) = .ok () := by
    unfold check_bpms
    rw [if_neg (by simp), if_pos hany]
  have hnz : ∀ x ∈ (m1, b1) :: rest, x.2 ≠ 0 := by
    intro x hx
    rcases List.mem_cons.mp hx with rfl | hmem
    · exact (show (0 : ℚ) < b1 by linarith).ne'
    · have := walkOK_tempos rest m1 b1 hW x hmem
      exact (show (0 : ℚ) < x.2 by linarith).ne'
  rcases eq_or_lt_of_le hm with hmeq | hmgt
  · refine ⟨0, 1, ?_, ?_, ?_⟩
    · unfold measure_to_second
      rw [if_pos (le_of_eq hmeq.symm)]
    · unfold second_to_measure
      rw [if_pos le_rfl]
    · rw [← hmeq, sub_self, abs_zero]
      norm_num
  · have hnle : ¬ m ≤ 1 := not_le.mpr hmgt
    have hb1pos : (0 : ℚ) < b1 := by linarith
    have hloopok : m2sLoop m ((m1, b1) :: rest) 1 b1 0 =
        .ok (m2sWalk m ((m1, b1) :: rest) 1 b1 0) :=
      m2sLoop_ok m ((m1, b1) :: rest) 1 b1 0 hb1pos.ne' hnz
    have hm2s : measure_to_second m ((m1, b1) :: rest) =
        ((m1, b1) :: rest, .ok (m2sWalk m ((m1, b1) :: rest) 1 b1 0)) := by
      simp only [measure_to_second, if_neg hnle, hchk, hsort, hloopok]
    by_cases hcl : pyIsClose m1 m = true
    · have hts : m2sWalk m ((m1, b1) :: rest) 1 b1 0 =
          0 + 60 * 4 * (m1 - 1) / b1 := by
        rw [m2sWalk, if_pos hcl]
      have hct1np : (0 : ℚ) + 60 * 4 * (m1 - 1) / b1 ≤ 0 := by
        have : 60 * 4 * (m1 - 1) / b1 ≤ 0 :=
          div_nonpos_iff.mpr (Or.inr ⟨by nlinarith, by linarith⟩)
        linarith
      refine ⟨0 + 60 * 4 * (m1 - 1) / b1, 1, ?_, ?_, ?_⟩
      · rw [hm2s, hts]
      · unfold second_to_measure
        rw [if_pos hct1np]
      · have h1 : |m1| ≤ 500000 := by
          rw [abs_of_nonneg hm10]
          linarith
        have h2 : |m| ≤ 500000 := by
          rw [abs_of_pos (by linarith)]
          linarith
        have h3 := abs_le_of_pyIsClose hcl h1 h2
        rw [abs_sub_comm, abs_of_pos (by linarith)] at h3
        rw [abs_of_nonpos (by linarith)]
        linarith
    · have hclf : pyIsClose m1 m = false := Bool.eq_false_iff.mpr hcl
      have hnb : ¬ m < m1 := not_lt.mpr (by linarith)
      have hts : m2sWalk m ((m1, b1) :: rest) 1 b1 0 =
          m2sWalk m rest m1 b1 (0 + 60 * 4 * (m1 - 1) / b1) := by
        rw [m2sWalk, if_neg hcl, if_neg hnb]
      have habs := lt_abs_of_pyIsClose_false hclf
      have hmc : 1/2000 < m - m1 := by
        rw [abs_sub_comm] at habs
        rwa [abs_of_pos (by linarith)] at habs
      have hct1abs : |(0 : ℚ) + 60 * 4 * (m1 - 1) / b1| ≤ 4 * (1 + m1) := by
        rw [zero_add]
        have h2 := abs_div240_le (m1 - 1) b1 hb1
        have h3 : |m1 - 1| ≤ 1 := abs_le.mpr ⟨by linarith, by linarith⟩
        linarith
      have hAI : AnchorInv m1 b1 (0 + 60 * 4 * (m1 - 1) / b1) rest := by
        exact ⟨hm10, by linarith, hb1, hb12, hct1abs,
          Or.inl ⟨hm11, by ring, htail⟩⟩
      have hpos : 0 < m2sWalk m rest m1 b1 (0 + 60 * 4 * (m1 - 1) / b1) :=
        m2sWalk_pos m rest m1 b1 _ hAI hW (by linarith) hmgt
      have hs20 : ¬ m2sWalk m rest m1 b1 (0 + 60 * 4 * (m1 - 1) / b1) ≤ 0 :=
        not_le.mpr hpos
      have hs2ok : s2mLoop (m2sWalk m rest m1 b1 (0 + 60 * 4 * (m1 - 1) / b1))
          ((m1, b1) :: rest) 1 b1 0 =
          .ok (s2mWalk (m2sWalk m rest m1 b1 (0 + 60 * 4 * (m1 - 1) / b1))
            ((m1, b1) :: rest) 1 b1 0) :=
        s2mLoop_ok _ ((m1, b1) :: rest) 1 b1 0 hb1pos.ne' hnz
      have hs2 : second_to_measure
          (m2sWalk m rest m1 b1 (0 + 60 * 4 * (m1 - 1) / b1)) ((m1, b1) :: rest) =
          ((m1, b1) :: rest, .ok (s2mWalk (m2sWalk m rest m1 b1 (0 + 60 * 4 * (m1 - 1) / b1))
            ((m1, b1) :: rest) 1 b1 0)) := by
        simp only [second_to_measure, if_neg hs20, hchk, hsort, hs2ok]
      have hgap2 := m2sWalk_gap m rest m1 b1 (0 + 60 * 4 * (m1 - 1) / b1)
        hW hb1pos hb12 hmc
      have hctb : |(0 : ℚ) + 60 * 4 * (m1 - 1) / b1| ≤ 10000 := by
        have : 4 * (1 + m1) ≤ 10000 := by linarith
        linarith
      have htb := m2sWalk_ub m (by linarith) hm2 rest m1 b1
        (0 + 60 * 4 * (m1 - 1) / b1) hm10 (by linarith) hb1 hb12 hct1abs hW
      have hclf2 : pyIsClose (0 + 60 * 4 * (m1 - 1) / b1)
          (m2sWalk m rest m1 b1 (0 + 60 * 4 * (m1 - 1) / b1)) = false := by
        apply pyIsClose_eq_false (by linarith) (by linarith)
        rw [abs_sub_comm, abs_of_pos (by linarith)]
        linarith
      have hcteq1 : (0 : ℚ) + 60 * (m1 - 1) * 4 / b1 =
          0 + 60 * 4 * (m1 - 1) / b1 := by ring
      have hsstep : s2mWalk (m2sWalk m rest m1 b1 (0 + 60 * 4 * (m1 - 1) / b1))
          ((m1, b1) :: rest) 1 b1 0 =
          s2mWalk (m2sWalk m rest m1 b1 (0 + 60 * 4 * (m1 - 1) / b1))
            rest m1 b1 (0 + 60 * 4 * (m1 - 1) / b1) := by
        rw [s2mWalk, hcteq1, if_neg (by rw [hclf2]; simp),
          if_neg (not_lt.mpr (by linarith))]
      refine ⟨m2sWalk m rest m1 b1 (0 + 60 * 4 * (m1 - 1) / b1),
        s2mWalk (m2sWalk m rest m1 b1 (0 + 60 * 4 * (m1 - 1) / b1))
          rest m1 b1 (0 + 60 * 4 * (m1 - 1) / b1), ?_, ?_, ?_⟩
      · rw [hm2s, hts]
      · rw [hs2, hsstep]
      · exact roundTripLoop m hm hm2 rest m1 b1 (0 + 60 * 4 * (m1 - 1) / b1)
          hAI hW (by linarith)

/-- Witness for `measure_second_round_trip` with one breakpoint `(1, 120)`
and query measure 2. -/
theorem measure_second_round_trip_witness :
    ∃ t mr, measure_to_second 2 [((1 : ℚ), (120 : ℚ))] =
        ([((1 : ℚ), (120 : ℚ))], .ok t) ∧
      second_to_measure t [((1 : ℚ), (120 : ℚ))] =
        ([((1 : ℚ), (120 : ℚ))], .ok mr) ∧
      |mr - 2| ≤ 1/2000 :=
  measure_second_round_trip 1 120 [] 2 (by norm_num) le_rfl (by norm_num)
    (by norm_num) trivial (by simp) (by norm_num) (by norm_num)

/-! ## Text-level helpers (Python `str` of numbers, comma/slash splitting)

All notation text is modelled as `List Char`; `String` appears only at
the outermost `export`/`parse` boundary. -/

def digitChar (n : ℕ) : Char := Char.ofNat (48 + n)

def isDigitChar (c : Char) : Bool := decide (48 ≤ c.toNat) && decide (c.toNat ≤ 57)

def charToDigit (c : Char) : ℕ := c.toNat - 48

/-- Decimal rendering of a natural number (Python `str(n)`); the fuel is
`n + 1`, enough since the value shrinks by a factor of ten each step. -/
def natToCharsAux : ℕ → ℕ → List Char
  | 0, _ => []
  | fuel + 1, n => if n < 10 then [digitChar n] else natToCharsAux fuel (n / 10) ++ [digitChar (n % 10)]

def natToChars (n : ℕ) : List Char := natToCharsAux (n + 1) n

/-- Python `str(i)` for `int`. -/
def intToChars (i : ℤ) : List Char :=
  if i < 0 then '-' :: natToChars (-i).toNat else natToChars i.toNat

def parseNatAcc (acc : ℕ) : List Char → ℕ
  | [] => acc
  | c :: cs => parseNatAcc (acc * 10 + charToDigit c) cs

/-- Decimal (`123` or `123.45`) literal parser used by the tokenizer model. -/
def parseDecimal (cs : List Char) : Option ℚ :=
  let intPart := cs.takeWhile isDigitChar
  let rest := cs.dropWhile isDigitChar
  if intPart = [] then none
  else
    match rest with
    | [] => some ((parseNatAcc 0 intPart : ℕ) : ℚ)
    | '.' :: frac =>
      if frac ≠ [] ∧ frac.all isDigitChar then
        some (((parseNatAcc 0 intPart : ℕ) : ℚ) +
          ((parseNatAcc 0 frac : ℕ) : ℚ) / (10 : ℚ) ^ frac.length)
      else none
    | _ => none

def splitOnAux (sep : Char) : List Char → List Char → List (List Char)
  | [], acc => [acc.reverse]
  | c :: cs, acc =>
    if c = sep then acc.reverse :: splitOnAux sep cs []
    else splitOnAux sep cs (c :: acc)

/-- Python `text.split(sep)` on characters. -/
def splitOnChar (sep : Char) (cs : List Char) : List (List Char) :=
  splitOnAux sep cs []

def isWSChar (c : Char) : Bool :=
  decide (c = ' ') || decide (c = '\n') || decide (c = '\t') || decide (c = '\r')

/-- Python `"".join(chart.split())`: remove all whitespace. -/
def stripWS (cs : List Char) : List Char := cs.filter (fun c => !isWSChar c)

/-! ## Tokenizer model

`simai_parse_fragment` lives in `maiconverter/simai_lark_parser.py`,
which is not among the source files.  Modelled from the spec: a fragment
is an optional parenthesised tempo `(number)`, an optional brace-enclosed
divisor `{int}`, then slash-separated note tokens; lane numbers are
`'1'..'8'` (emitted 0-based), tap modifiers are `b`/`x`/`$`, holds are
`h`/`hx` with a bracketed `[den:num]` duration read as `num/den` measures.
Token kinds this development never exercises (slides, touch notes, the
`[bpm#den:num]` spec) are reported as errors by the model; the event
record kinds below mirror the keys `simai.py` reads from the real
tokenizer's output. -/

inductive FragEvent where
  | bpmEv (value : ℚ)
  | divisorEv (value : ℕ)
  | tapEv (button : ℤ) (modifier : Option String)
  | holdEv (button : ℤ) (modifier : Option String) (duration : ℚ)
  | slideEv (startButton endButton : ℤ) (pattern : String) (duration : ℚ)
      (modifier : Option String) (equivalentBpm : Option ℚ)
      (reflectPosition : Option ℤ)
  | touchTapEv (location : List Char) (modifier : Option String)
  | touchHoldEv (location : List Char) (modifier : Option String) (duration : ℚ)
deriving DecidableEq

def parseBracket (cs : List Char) : Option (ℕ × ℕ) :=
  match cs with
  | '[' :: rest =>
    let den := rest.takeWhile isDigitChar
    let rest2 := rest.dropWhile isDigitChar
    match rest2 with
    | ':' :: rest3 =>
      let num := rest3.takeWhile isDigitChar
      let rest4 := rest3.dropWhile isDigitChar
      if den ≠ [] ∧ num ≠ [] ∧ rest4 = [']'] then
        some (parseNatAcc 0 den, parseNatAcc 0 num)
      else none
    | _ => none
  | _ => none

def isTapModChar (c : Char) : Bool :=
  decide (c = 'b') || decide (c = 'x') || decide (c = '$')

def parseTokenBody (button : ℤ) (mods body : List Char) :
    Except String FragEvent :=
  match body with
  | [] => .ok (.tapEv button (if mods = [] then none else some (String.mk mods)))
  | 'h' :: hrest =>
    if mods = [] then
      match hrest with
      | 'x' :: brest =>
        match parseBracket brest with
        | some (den, num) =>
          .ok (.holdEv button (some "x") (((num : ℕ) : ℚ) / ((den : ℕ) : ℚ)))
        | none => .error "bad hold duration"
      | brest =>
        match parseBracket brest with
        | some (den, num) =>
          .ok (.holdEv button none (((num : ℕ) : ℚ) / ((den : ℕ) : ℚ)))
        | none => .error "bad hold duration"
    else .error "unmodelled hold modifier"
  | _ => .error "unmodelled token"

def parseToken (tok : List Char) : Except String FragEvent :=
  match tok with
  | [] => .error "empty token"
  | c :: rest =>
    if decide (49 ≤ c.toNat) && decide (c.toNat ≤ 56) then
      parseTokenBody ((c.toNat : ℤ) - 49) (rest.takeWhile isTapModChar)
        (rest.dropWhile isTapModChar)
    else .error "unmodelled token"

def parseTokens : List (List Char) → Except String (List FragEvent)
  | [] => .ok []
  | t :: ts =>
    match parseToken t with
    | .error e => .error e
    | .ok ev =>
      match parseTokens ts with
      | .error e => .error e
      | .ok evs => .ok (ev :: evs)

def parseParenGroup (cs : List Char) :
    Except String (Option FragEvent × List Char) :=
  match cs with
  | [] => .ok (none, [])
  | c :: rest =>
    if c = '(' then
      match rest.dropWhile (fun x => !decide (x = ')')) with
      | [] => .error "unbalanced paren"
      | c2 :: after =>
        if c2 = ')' then
          match parseDecimal (rest.takeWhile (fun x => !decide (x = ')'))) with
          | some v => .ok (some (.bpmEv v), after)
          | none => .error "bad tempo"
        else .error "unbalanced paren"
    else .ok (none, c :: rest)

def parseBraceGroup (cs : List Char) :
    Except String (Option FragEvent × List Char) :=
  match cs with
  | [] => .ok (none, [])
  | c :: rest =>
    if c = '{' then
      let content := rest.takeWhile (fun x => !decide (x = '}'))
      match rest.dropWhile (fun x => !decide (x = '}')) with
      | '}' :: after =>
        if content ≠ [] ∧ content.all isDigitChar then
          .ok (some (.divisorEv (parseNatAcc 0 content)), after)
        else .error "bad divisor"
      | _ => .error "unbalanced brace"
    else .ok (none, c :: rest)

/-- Modelled from the spec: the external tokenizer
`simai_parse_fragment` (from `simai_lark_parser.py`, not in the sources). -/
def simai_parse_fragment (cs : List Char) : Except String (List FragEvent) :=
  match parseParenGroup cs with
  | .error e => .error e
  | .ok (bpmEvOpt, cs1) =>
    match parseBraceGroup cs1 with
    | .error e => .error e
    | .ok (divEvOpt, cs2) =>
      let headerEvents := bpmEvOpt.toList ++ divEvOpt.toList
      if cs2 = [] then .ok headerEvents
      else
        match parseTokens (splitOnChar '/' cs2) with
        | .error e => .error e
        | .ok evs => .ok (headerEvents ++ evs)

/-! ## Model of `simai_parse_chart` (the fragment-stream state machine) -/

structure ParseState where
  chart : SimaiChart
  current_bpm : ℚ
  current_divisor : ℚ
  current_measure : ℚ
deriving DecidableEq

/-- One tagged record applied to the chart at the current measure
(`simai.py` lines 695-805).  `stars` is the per-fragment
`star_positions` list. -/
def simai_handle_event (st : ParseState) (stars : List ℤ) :
    FragEvent → Except String (ParseState × List ℤ)
  | .bpmEv v =>
    match st.chart.set_bpm st.current_measure v with
    | .error e => .error e
    | .ok c2 => .ok (⟨c2, v, st.current_divisor, st.current_measure⟩, stars)
  | .divisorEv v =>
    .ok (⟨st.chart, st.current_bpm, (v : ℚ), st.current_measure⟩, stars)
  | .tapEv button modifier =>
    let mchars := match modifier with
      | none => []
      | some mstr => mstr.data
    let is_break := modifier ≠ none ∧ mchars.contains 'b'
    let is_ex := modifier ≠ none ∧ ¬ mchars.contains 'b' ∧ mchars.contains 'x'
    let is_star := modifier ≠ none ∧ mchars.contains '$'
    .ok (⟨st.chart.add_tap st.current_measure button
        (decide is_break) (decide is_star) (decide is_ex),
      st.current_bpm, st.current_divisor, st.current_measure⟩, stars)
  | .holdEv button modifier duration =>
    let is_ex := modifier = some "x"
    .ok (⟨st.chart.add_hold st.current_measure button duration (decide is_ex),
      st.current_bpm, st.current_divisor, st.current_measure⟩, stars)
  | .slideEv sb eb pat dur modifier eqbpm rp =>
    let is_break := modifier = some "b"
    let is_ex := modifier = some "x"
    let is_tapless := modifier = some "?" ∨ modifier = some "!" ∨ modifier = some "$"
    if ¬ is_break ∧ ¬ is_ex ∧ ¬ is_tapless ∧ modifier ≠ none then
      .error "Unknown slide modifier"
    else
      let addStar := ¬ (is_tapless ∨ sb ∈ stars)
      let chart1 := if addStar then
          st.chart.add_tap st.current_measure sb (decide is_break) true (decide is_ex)
        else st.chart
      let stars2 := if addStar then stars ++ [sb] else stars
      let scaled : ℚ × ℚ := match eqbpm with
        | none => (dur, 1/4)
        | some eb2 => (st.current_bpm / eb2 * dur, st.current_bpm / eb2 * (1/4))
      match chart1.add_slide st.current_measure sb eb scaled.1 pat scaled.2 rp with
      | .error e => .error e
      | .ok c2 => .ok (⟨c2, st.current_bpm, st.current_divisor, st.current_measure⟩, stars2)
  | .touchTapEv location modifier =>
    if modifier ≠ none ∧ modifier ≠ some "f" then .error "Unknown touch modifier"
    else
      match location with
      | [] => .error "IndexError"
      | z :: locrest =>
        let loc : ℤ := match locrest with
          | [] => 0
          | d :: _ => (charToDigit d : ℤ) - 1
        .ok (⟨st.chart.add_touch_tap st.current_measure loc (String.mk [z])
            (decide (modifier = some "f")),
          st.current_bpm, st.current_divisor, st.current_measure⟩, stars)
  | .touchHoldEv location modifier duration =>
    if modifier ≠ none ∧ modifier ≠ some "f" then .error "Unknown touch modifier"
    else
      match location with
      | [] => .error "IndexError"
      | z :: locrest =>
        let loc : ℤ := match locrest with
          | [] => 0
          | d :: _ => (charToDigit d : ℤ) - 1
        .ok (⟨st.chart.add_touch_hold st.current_measure loc (String.mk [z])
            duration (decide (modifier = some "f")),
          st.current_bpm, st.current_divisor, st.current_measure⟩, stars)

def simai_handle_events (st : ParseState) (stars : List ℤ) :
    List FragEvent → Except String ParseState
  | [] => .ok st
  | ev :: evs =>
    match simai_handle_event st stars ev with
    | .error e => .error e
    | .ok (st2, stars2) => simai_handle_events st2 stars2 evs

def simai_process_fragments (st : ParseState) :
    List (List Char) → Except String SimaiChart
  | [] => .ok st.chart
  | f :: fs =>
    if f = ['E'] then .ok st.chart
    else
      let step : Except String ParseState :=
        if f = [] then .ok st
        else
          match simai_parse_fragment f with
          | .error e => .error e
          | .ok events => simai_handle_events st [] events
      match step with
      | .error e => .error e
      | .ok st2 =>
        if st2.current_divisor = 0 then .error "ZeroDivisionError"
        else
          simai_process_fragments
            ⟨st2.chart, st2.current_bpm, st2.current_divisor,
              st2.current_measure + 1 / st2.current_divisor⟩ fs

/-- `simai_parse_chart` (initial state: bpm 120, divisor 4, measure 1.0). -/
def simai_parse_chart (chart : String) : Except String SimaiChart :=
  simai_process_fragments ⟨⟨[], []⟩, 120, 4, 1⟩
    (splitOnChar ',' (stripWS chart.data))

/-! ### Parsing scenario `"(120)4,1,2,E"` (C6) -/

/-- C6 (counterexample to the claim as stated): parsing `"(120)4,1,2,E"`
yields taps at measures 1.0, 1.25 and 1.5 (each comma advances by
`1/divisor = 1/4`), so no note sits at measure 2.0 as the claim asserts. -/
theorem c6_counterexample :
    simai_parse_chart "(120)4,1,2,E" =
      .ok ⟨[SimaiTapNote.make 1 3 false false false,
            SimaiTapNote.make (5/4) 0 false false false,
            SimaiTapNote.make (3/2) 1 false false false],
        [⟨1, 120⟩]⟩ ∧
    ([SimaiTapNote.make 1 3 false false false,
      SimaiTapNote.make (5/4) 0 false false false,
      SimaiTapNote.make (3/2) 1 false false false].all
        (fun nt => !decide (nt.measure = 2))) = true := ⟨rfl, rfl⟩

/-- C6 (amended): parsing `"(120)4,1,2,E"` yields one tempo marker
(bpm 120 at measure 1.0), a tap at position index 3 at measure 1.0, a tap
at index 0 at measure 1.25, and a tap at index 1 at measure 1.5. -/
theorem c6_amended_parse :
    simai_parse_chart "(120)4,1,2,E" =
      .ok ⟨[SimaiTapNote.make 1 3 false false false,
            SimaiTapNote.make (5/4) 0 false false false,
            SimaiTapNote.make (3/2) 1 false false false],
        [⟨1, 120⟩]⟩ ∧
    (SimaiTapNote.make 1 3 false false false).measure = 1 ∧
    (SimaiTapNote.make 1 3 false false false).position = 3 ∧
    (SimaiTapNote.make (5/4) 0 false false false).measure = 5/4 ∧
    (SimaiTapNote.make (3/2) 1 false false false).measure = 3/2 := by
  refine ⟨rfl, rfl, rfl, rfl, rfl⟩

/-! ## Model of `simai_convert_to_fragment` and `SimaiChart.export` -/

/-- Fractional decimal digits of a rational in `[0, 1)`; terminates
within the fuel for every value the exporter prints (multiples of
`1/10000`), matching Python float repr on those values. -/
def fracDigitsAux : ℕ → ℚ → List Char
  | 0, _ => []
  | fuel + 1, r =>
    if r = 0 then []
    else
      let r10 := r * 10
      let d := ⌊r10⌋
      digitChar d.toNat :: fracDigitsAux fuel (r10 - (d : ℚ))

/-- Python `str(float)` / `"{}".format(float)` for the exact-decimal
values the exporter prints (e.g. `120.0`, `207.5`). -/
def pyFloatRepr (q : ℚ) : List Char :=
  if q < 0 then
    '-' :: (natToChars (-q).floor.toNat ++
      '.' :: (if (-q) - ((-q).floor : ℚ) = 0 then ['0']
        else fracDigitsAux 17 ((-q) - ((-q).floor : ℚ))))
  else
    natToChars q.floor.toNat ++
      '.' :: (if q - (q.floor : ℚ) = 0 then ['0']
        else fracDigitsAux 17 (q - (q.floor : ℚ)))

/-- Python `"{:.2f}".format(q)`: two decimals, ties to even. -/
def format2f (q : ℚ) : List Char :=
  let cents := pyRound (100 * q)
  let a := cents.natAbs
  (if cents < 0 then ['-'] else []) ++
    natToChars (a / 100) ++ '.' :: [digitChar (a % 100 / 10), digitChar (a % 100 % 10)]

def tapClass (nt : SimaiNote) : Bool :=
  decide (nt.note_type = NoteType.tap) || decide (nt.note_type = NoteType.break_tap) ||
    decide (nt.note_type = NoteType.ex_tap) || decide (nt.note_type = NoteType.star) ||
    decide (nt.note_type = NoteType.break_star) || decide (nt.note_type = NoteType.ex_star)

def holdClass (nt : SimaiNote) : Bool :=
  decide (nt.note_type = NoteType.hold) || decide (nt.note_type = NoteType.ex_hold)

def slideKeyLT (a b : SimaiNote) : Bool :=
  decide (a.position < b.position) ||
    (decide (a.position = b.position) &&
      (decide (a.end_position < b.end_position) ||
        (decide (a.end_position = b.end_position) && decide (a.pattern < b.pattern))))

def insertSlide (x : SimaiNote) : List SimaiNote → List SimaiNote
  | [] => [x]
  | y :: ys => if slideKeyLT y x then y :: insertSlide x ys else x :: y :: ys

/-- `slide_notes.sort(key=...(position, end_position, pattern))` (stable). -/
def sortSlides : List SimaiNote → List SimaiNote
  | [] => []
  | x :: xs => insertSlide x (sortSlides xs)

/-- `simai_slide_to_pattern_str`. -/
def simai_slide_to_pattern_str (slide_note : SimaiNote) :
    Except String (List Char) :=
  if slide_note.pattern ≠ "V" then .ok slide_note.pattern.data
  else
    match slide_note.reflect_position with
    | none => .error "Slide has V pattern but no reflect position"
    | some rp => .ok ('V' :: intToChars (rp + 1))

/-- The tap loop of `simai_convert_to_fragment` (the `continue` for a
star with a co-located slide skips the counter increment). -/
def fragTaps (slide_notes : List SimaiNote) :
    List SimaiNote → List Char → ℕ → List Char × ℕ
  | [], frag, counter => (frag, counter)
  | tap_note :: rest, frag, counter =>
    if holdClass tap_note || decide (tap_note.note_type = NoteType.touch_tap) ||
        decide (tap_note.note_type = NoteType.touch_hold) ||
        decide (tap_note.note_type = NoteType.complete_slide) then
      -- unreachable (input is pre-filtered to tap classes); Python would
      -- fall through both branches and still bump the counter
      fragTaps slide_notes rest frag (counter + 1)
    else if decide (tap_note.note_type = NoteType.tap) ||
        decide (tap_note.note_type = NoteType.break_tap) ||
        decide (tap_note.note_type = NoteType.ex_tap) then
      let modifier_string : List Char :=
        if tap_note.note_type = NoteType.break_tap then ['b']
        else if tap_note.note_type = NoteType.ex_tap then ['x']
        else []
      let frag2 := frag ++ (if 0 < counter then ['/'] else []) ++
        intToChars (tap_note.position + 1) ++ modifier_string
      fragTaps slide_notes rest frag2 (counter + 1)
    else
      if 0 < (slide_notes.filter
          (fun s => decide (s.position = tap_note.position))).length then
        fragTaps slide_notes rest frag counter
      else
        let modifier_string : List Char :=
          if tap_note.note_type = NoteType.break_star then ['b', '$']
          else if tap_note.note_type = NoteType.ex_star then ['x', '$']
          else ['$']
        let frag2 := frag ++ (if 0 < counter then ['/'] else []) ++
          intToChars (tap_note.position + 1) ++ modifier_string
        fragTaps slide_notes rest frag2 (counter + 1)

def fragHolds : List SimaiNote → List Char → ℕ → List Char × ℕ
  | [], frag, counter => (frag, counter)
  | hold_note :: rest, frag, counter =>
    let frac := limit_denominator hold_note.duration 1000
    let modifier_string : List Char :=
      if hold_note.note_type = NoteType.ex_hold then ['h', 'x'] else ['h']
    let frag2 := frag ++ (if 0 < counter then ['/'] else []) ++
      intToChars (hold_note.position + 1) ++ modifier_string ++
      '[' :: (natToChars frac.den ++ ':' :: intToChars frac.num ++ [']'])
    fragHolds rest frag2 (counter + 1)

def fragTouchTaps : List SimaiNote → List Char → ℕ → List Char × ℕ
  | [], frag, counter => (frag, counter)
  | touch_tap_note :: rest, frag, counter =>
    let modifier_string : List Char := if touch_tap_note.is_firework then ['f'] else []
    let frag2 := frag ++ (if 0 < counter then ['/'] else []) ++
      touch_tap_note.zone.data ++ intToChars (touch_tap_note.position + 1) ++
      modifier_string
    fragTouchTaps rest frag2 (counter + 1)

def fragTouchHolds : List SimaiNote → List Char → ℕ → List Char × ℕ
  | [], frag, counter => (frag, counter)
  | touch_hold_note :: rest, frag, counter =>
    let frac := limit_denominator touch_hold_note.duration 1000
    let modifier_string : List Char :=
      if touch_hold_note.is_firework then ['h', 'f'] else ['h']
    let frag2 := frag ++ (if 0 < counter then ['/'] else []) ++
      touch_hold_note.zone.data ++ modifier_string ++
      '[' :: (natToChars frac.den ++ ':' :: intToChars frac.num ++ [']'])
    fragTouchHolds rest frag2 (counter + 1)

def fragSlides (tap_notes : List SimaiNote) (current_bpm : Option ℚ) :
    List SimaiNote → List Char → ℕ → List ℤ → Except String (List Char × ℕ)
  | [], frag, counter, _ => .ok (frag, counter)
  | slide_note :: rest, frag, counter, positions =>
    let stars := tap_notes.filter (fun s => decide (s.position = slide_note.position))
    let seen := slide_note.position ∈ positions
    let frag1 := frag ++ (if 0 < counter ∧ ¬ seen then ['/'] else [])
    let modsE : Except String (List Char) :=
      if stars = [] ∧ ¬ seen then .ok ['?']
      else
        match stars with
        | [] => .error "IndexError"
        | s0 :: _ =>
          if s0.note_type = NoteType.break_star ∧ ¬ seen then .ok ['b']
          else if s0.note_type = NoteType.ex_star ∧ ¬ seen then .ok ['x']
          else .ok []
    match modsE with
    | .error e => .error e
    | .ok modifier_string =>
      let start_str : List Char :=
        if seen then ['*'] else intToChars (slide_note.position + 1)
      match simai_slide_to_pattern_str slide_note with
      | .error e => .error e
      | .ok patStr =>
        let bodyE : Except String (List Char) :=
          if slide_note.delay ≠ 1/4 then
            match current_bpm with
            | none => .error "TypeError"
            | some cb =>
              if slide_note.delay = 0 then .error "ZeroDivisionError"
              else
                let scale := (1/4) / slide_note.delay
                let equivalent_bpm := round4 (cb * scale)
                let frac := limit_denominator (slide_note.duration * scale) 1000
                .ok (start_str ++ modifier_string ++ patStr ++
                  intToChars (slide_note.end_position + 1) ++
                  '[' :: (format2f equivalent_bpm ++ '#' ::
                    (natToChars frac.den ++ ':' :: intToChars frac.num ++ [']'])))
          else
            let frac := limit_denominator slide_note.duration 1000
            .ok (start_str ++ modifier_string ++ patStr ++
              intToChars (slide_note.end_position + 1) ++
              '[' :: (natToChars frac.den ++ ':' :: intToChars frac.num ++ [']']))
        match bodyE with
        | .error e => .error e
        | .ok body =>
          let positions2 := if ¬ seen then positions ++ [slide_note.position] else positions
          fragSlides tap_notes current_bpm rest (frag1 ++ body) (counter + 1) positions2

/-- Selector for the tempo events of a measure (`isinstance(event, SimaiBPM)`). -/
def eventBPM : SimaiNote ⊕ SimaiBPM → Option SimaiBPM
  | .inr b => some b
  | .inl _ => none

/-- Selector for the note events of a measure. -/
def eventNote : SimaiNote ⊕ SimaiBPM → Option SimaiNote
  | .inl n => some n
  | .inr _ => none

/-- `simai_convert_to_fragment`. -/
def simai_convert_to_fragment (events : List (SimaiNote ⊕ SimaiBPM))
    (current_bpm : Option ℚ) (divisor : Option ℕ) :
    Except String (List Char) :=
  if events.length = 0 then .ok []
  else
    let bpms := events.filterMap eventBPM
    let notes := events.filterMap eventNote
    let tap_notes := notes.filter tapClass
    let hold_notes := notes.filter holdClass
    let touch_tap_notes := notes.filter (fun nt => decide (nt.note_type = NoteType.touch_tap))
    let touch_hold_notes := notes.filter (fun nt => decide (nt.note_type = NoteType.touch_hold))
    let slide_notes := sortSlides (notes.filter
      (fun nt => decide (nt.note_type = NoteType.complete_slide)))
    match bpms with
    | _ :: _ :: _ => .error "Multiple BPM defined at same measure"
    | _ =>
      let frag0 : List Char := match bpms with
        | [b] => '(' :: (pyFloatRepr b.bpm ++ [')'])
        | _ => []
      let frag1 := frag0 ++ (match divisor with
        | some d => '{' :: (natToChars d ++ ['}'])
        | none => [])
      let (frag2, counter2) := fragTaps slide_notes tap_notes frag1 0
      let (frag3, counter3) := fragHolds hold_notes frag2 counter2
      let (frag4, counter4) := fragTouchTaps touch_tap_notes frag3 counter3
      let (frag5, counter5) := fragTouchHolds touch_hold_notes frag4 counter4
      match fragSlides tap_notes current_bpm slide_notes frag5 counter5 [] with
      | .error e => .error e
      | .ok (frag6, _) => .ok frag6

/-- The measure loop of `SimaiChart.export` with its running state
(`previous_measure_whole`, `slide_hold_last_end_measure`,
`previous_divisor`, accumulated text). -/
def exportLoop (c : SimaiChart) :
    List ℚ → ℤ → ℚ → Option ℕ → List Char → Except String (List Char)
  | [], _, _, _, acc => .ok acc
  | current :: more, prev_whole, shle, prev_div, acc =>
    let bpm := c.bpms.filter (fun b => decide (b.measure = current))
    let notes := c.notes.filter (fun nt => decide (nt.measure = current))
    let hold_slides := notes.filter (fun nt =>
      decide (nt.note_type = NoteType.hold) ||
        decide (nt.note_type = NoteType.ex_hold) ||
        decide (nt.note_type = NoteType.touch_hold) ||
        decide (nt.note_type = NoteType.complete_slide))
    let shle2 := hold_slides.foldl (fun s hs =>
      let em := if hs.note_type = NoteType.complete_slide then
          current + hs.delay + hs.duration
        else current + hs.duration
      if s < em then em else s) shle
    let prev_whole2 := if prev_whole < pyInt current then pyInt current else prev_whole
    let acc1 := if prev_whole < pyInt current then acc ++ ['\n'] else acc
    let wpaE : Except String (Option (ℤ × ℕ × ℤ)) :=
      match more with
      | next :: _ =>
        (match simai_get_rest current next with
         | .error e => .error e
         | .ok none => .error "TypeError"
         | .ok (some t) => .ok (some t))
      | [] =>
        if current < shle2 then
          match simai_get_rest current shle2 with
          | .error e => .error e
          | .ok none => .error "TypeError"
          | .ok (some t) => .ok (some t)
        else .ok none
    match wpaE with
    | .error e => .error e
    | .ok wpa =>
      let cdm : Option ℕ × Bool :=
        match wpa with
        | some (whole, post_div, _) =>
          if 0 < whole then (some 1, true) else (some post_div, false)
        | none => (prev_div, false)
      let divisorTok : Option ℕ := if cdm.1 ≠ prev_div then cdm.1 else none
      match simai_convert_to_fragment
          (notes.map Sum.inl ++ bpm.map Sum.inr) (c.get_bpm current) divisorTok with
      | .error e => .error e
      | .ok fragChars =>
        let acc2 := acc1 ++ fragChars
        let acc3 := match wpa with
          | some (whole, _, _) =>
            if cdm.2 then acc2 ++ List.replicate whole.toNat ',' else acc2
          | none => acc2
        let step : List Char × Option ℕ :=
          match wpa with
          | none => (acc3, cdm.1)
          | some (_, post_div, post_amount) =>
            if some post_div ≠ cdm.1 then
              (acc3 ++ '{' :: (natToChars post_div ++ ['}']) ++
                List.replicate post_amount.toNat ',', some post_div)
            else (acc3 ++ List.replicate post_amount.toNat ',', cdm.1)
        exportLoop c more prev_whole2 shle2 step.2 step.1

/-- `SimaiChart.export`. -/
def SimaiChart.export (c : SimaiChart) : Except String String :=
  if c.bpms.length = 0 then .error "No BPMs defined"
  else
    match c.get_bpm 1 with
    | none => .error "No starting BPM defined"
    | some _ =>
      let measures := sortQ (dedupQ
        (c.notes.map (fun nt => nt.measure) ++ c.bpms.map (fun b => b.measure)))
      match exportLoop c measures 1 1 none [] with
      | .error e => .error e
      | .ok acc => .ok (String.mk (acc ++ [',', '\n', 'E']))

/-! ### Round trip of export followed by parse (C1) -/

/-- C1 (counterexample to the claim as stated): a chart with one tempo
marker `(1.0, 120)` and one hold of duration `0.0003` satisfies the export
preconditions, but the exported text carries the duration through
`Fraction(...).limit_denominator(1000)`, which collapses `3/10000` to
`0/1`; parsing the export yields a hold of duration `0`, off by
`0.0003 > 0.0001`. -/
theorem c1_counterexample :
    SimaiChart.export ⟨[SimaiHoldNote.make 1 0 (3/10000) false], [⟨1, 120⟩]⟩ =
        .ok "(120.0){1}1h[1:0],\nE" ∧
      simai_parse_chart "(120.0){1}1h[1:0],\nE" =
        .ok ⟨[SimaiHoldNote.make 1 0 0 false], [⟨1, 120⟩]⟩ ∧
      (SimaiHoldNote.make 1 0 (3/10000) false).duration = 3/10000 ∧
      (SimaiHoldNote.make 1 0 0 false).duration = 0 ∧
      ¬ |(0 : ℚ) - 3/10000| ≤ 1/10000 := by
  refine ⟨rfl, rfl, rfl, rfl, ?_⟩
  rw [zero_sub, abs_neg, abs_of_pos (by norm_num : (0 : ℚ) < 3/10000)]
  norm_num

/-! ### Restricted round trip of export followed by parse (C1, amended)

For charts made of one tempo marker `(1.0, B)` with `B` a positive
integer and plain taps at measure 1.0 on lanes below 8, the export is
the single fragment `(B.0)p1/p2/.../pn,\nE` and parsing it recovers the
chart exactly.  The lemmas below compute both directions. -/

/-- The tap section rendered by `fragTaps` for plain taps at 0-based
positions `ps`, starting at slash counter `k`. -/
def tapsRendered : List ℕ → ℕ → List Char
  | [], _ => []
  | p :: rest, k =>
    (if 0 < k then ['/'] else []) ++ natToChars (p + 1) ++ tapsRendered rest (k + 1)

theorem digitChar_toNat (k : ℕ) (hk : k < 10) : (digitChar k).toNat = 48 + k := by
  interval_cases k <;> decide

theorem charToDigit_digitChar (k : ℕ) (hk : k < 10) :
    charToDigit (digitChar k) = k := by
  unfold charToDigit
  rw [digitChar_toNat k hk]
  omega

theorem isDigitChar_digitChar (k : ℕ) (hk : k < 10) :
    isDigitChar (digitChar k) = true := by
  unfold isDigitChar
  rw [digitChar_toNat k hk]
  simp only [Bool.and_eq_true, decide_eq_true_eq]
  omega

theorem ne_of_toNat_ne {a b : Char} (h : a.toNat ≠ b.toNat) : a ≠ b :=
  fun he => h (congrArg Char.toNat he)

theorem digitChar_ne_of_toNat (j : ℕ) (hj : j < 10) (c : Char)
    (hc : ¬ (48 ≤ c.toNat ∧ c.toNat ≤ 57)) : digitChar j ≠ c := by
  apply ne_of_toNat_ne
  rw [digitChar_toNat j hj]
  omega

theorem isWSChar_eq_false (c : Char) (h : 33 ≤ c.toNat) : isWSChar c = false := by
  unfold isWSChar
  have h1 : (' ' : Char).toNat = 32 := rfl
  have h2 : ('\n' : Char).toNat = 10 := rfl
  have h3 : ('\t' : Char).toNat = 9 := rfl
  have h4 : ('\r' : Char).toNat = 13 := rfl
  rw [decide_eq_false (ne_of_toNat_ne (by omega)),
    decide_eq_false (ne_of_toNat_ne (by omega)),
    decide_eq_false (ne_of_toNat_ne (by omega)),
    decide_eq_false (ne_of_toNat_ne (by omega))]
  rfl

theorem natToCharsAux_digit_mem :
    ∀ (fuel n : ℕ) (c : Char), c ∈ natToCharsAux fuel n →
      ∃ k, k < 10 ∧ c = digitChar k := by
  intro fuel
  induction fuel with
  | zero => intro n c hc; simp [natToCharsAux] at hc
  | succ f ih =>
    intro n c hc
    rw [natToCharsAux] at hc
    by_cases h10 : n < 10
    · rw [if_pos h10] at hc
      exact ⟨n, h10, List.mem_singleton.mp hc⟩
    · rw [if_neg h10] at hc
      rcases List.mem_append.mp hc with h1 | h2
      · exact ih _ c h1
      · exact ⟨n % 10, Nat.mod_lt n (by norm_num), List.mem_singleton.mp h2⟩

theorem natToChars_digit_mem (n : ℕ) (c : Char) (hc : c ∈ natToChars n) :
    ∃ k, k < 10 ∧ c = digitChar k :=
  natToCharsAux_digit_mem _ _ _ hc

theorem natToChars_toNat_range (n : ℕ) (c : Char) (hc : c ∈ natToChars n) :
    48 ≤ c.toNat ∧ c.toNat ≤ 57 := by
  obtain ⟨k, hk, rfl⟩ := natToChars_digit_mem n c hc
  rw [digitChar_toNat k hk]
  omega

theorem natToChars_ne_nil (n : ℕ) : natToChars n ≠ [] := by
  unfold natToChars natToCharsAux
  by_cases h10 : n < 10
  · rw [if_pos h10]; simp
  · rw [if_neg h10]; simp

theorem natToChars_single (n : ℕ) (h : n < 10) : natToChars n = [digitChar n] := by
  unfold natToChars natToCharsAux
  rw [if_pos h]

theorem intToChars_natCast_succ (p : ℕ) :
    intToChars ((p : ℤ) + 1) = natToChars (p + 1) := by
  unfold intToChars
  rw [if_neg (by omega : ¬ ((p : ℤ) + 1) < 0)]
  have h : ((p : ℤ) + 1).toNat = p + 1 := by omega
  rw [h]

theorem parseNatAcc_append (l1 l2 : List Char) :
    ∀ acc, parseNatAcc acc (l1 ++ l2) = parseNatAcc (parseNatAcc acc l1) l2 := by
  induction l1 with
  | nil => intro acc; rfl
  | cons c cs ih =>
    intro acc
    show parseNatAcc (acc * 10 + charToDigit c) (cs ++ l2) =
      parseNatAcc (parseNatAcc (acc * 10 + charToDigit c) cs) l2
    exact ih _

theorem parseNat_natToCharsAux :
    ∀ (fuel n : ℕ), n < fuel → parseNatAcc 0 (natToCharsAux fuel n) = n := by
  intro fuel
  induction fuel with
  | zero => intro n h; omega
  | succ f ih =>
    intro n h
    rw [natToCharsAux]
    by_cases h10 : n < 10
    · rw [if_pos h10]
      show 0 * 10 + charToDigit (digitChar n) = n
      rw [charToDigit_digitChar n h10]
      omega
    · rw [if_neg h10]
      rw [parseNatAcc_append]
      have hlt : n / 10 < n := Nat.div_lt_self (by omega) (by norm_num)
      rw [ih (n / 10) (by omega)]
      show n / 10 * 10 + charToDigit (digitChar (n % 10)) = n
      rw [charToDigit_digitChar _ (Nat.mod_lt n (by norm_num))]
      omega

theorem parseNat_natToChars (n : ℕ) : parseNatAcc 0 (natToChars n) = n :=
  parseNat_natToCharsAux (n + 1) n (Nat.lt_succ_self n)

theorem takeWhile_append_sep (p : Char → Bool) :
    ∀ (l1 : List Char) (c : Char) (l2 : List Char),
      (∀ x ∈ l1, p x = true) → p c = false →
      ((l1 ++ c :: l2).takeWhile p = l1 ∧ (l1 ++ c :: l2).dropWhile p = c :: l2) := by
  intro l1
  induction l1 with
  | nil =>
    intro c l2 _ hc
    refine ⟨?_, ?_⟩
    · simp [List.takeWhile_cons, hc]
    · simp [List.dropWhile_cons, hc]
  | cons x xs ih =>
    intro c l2 hall hc
    have hx : p x = true := hall x (List.mem_cons_self x xs)
    obtain ⟨h1, h2⟩ := ih c l2 (fun y hy => hall y (List.mem_cons_of_mem x hy)) hc
    refine ⟨?_, ?_⟩
    · simp [List.takeWhile_cons, hx, h1]
    · simp [List.dropWhile_cons, hx, h2]

theorem splitOnAux_append_sep (sep : Char) :
    ∀ (l1 l2 acc : List Char), (∀ x ∈ l1, x ≠ sep) →
      splitOnAux sep (l1 ++ sep :: l2) acc =
        (acc.reverse ++ l1) :: splitOnAux sep l2 [] := by
  intro l1
  induction l1 with
  | nil =>
    intro l2 acc _
    simp [splitOnAux]
  | cons x xs ih =>
    intro l2 acc hall
    have hx : x ≠ sep := hall x (List.mem_cons_self x xs)
    rw [List.cons_append, splitOnAux, if_neg hx]
    rw [ih l2 (x :: acc) (fun y hy => hall y (List.mem_cons_of_mem x hy))]
    simp

theorem splitOnAux_no_sep (sep : Char) :
    ∀ (l acc : List Char), (∀ x ∈ l, x ≠ sep) →
      splitOnAux sep l acc = [acc.reverse ++ l] := by
  intro l
  induction l with
  | nil => intro acc _; simp [splitOnAux]
  | cons x xs ih =>
    intro acc hall
    have hx : x ≠ sep := hall x (List.mem_cons_self x xs)
    simp only [splitOnAux, if_neg hx]
    rw [ih (x :: acc) (fun y hy => hall y (List.mem_cons_of_mem x hy))]
    simp

theorem ratFloor_natCast (n : ℕ) : ((n : ℚ)).floor = (n : ℤ) := by
  have h : ((n : ℚ)).floor = ⌊(n : ℚ)⌋ := rfl
  rw [h, Int.floor_natCast]

theorem pyFloatRepr_natCast (B : ℕ) :
    pyFloatRepr (B : ℚ) = natToChars B ++ ['.', '0'] := by
  unfold pyFloatRepr
  rw [if_neg (not_lt.mpr (by positivity : (0 : ℚ) ≤ (B : ℚ)))]
  rw [ratFloor_natCast]
  rw [Int.toNat_natCast]
  rw [if_pos (by push_cast; ring : (B : ℚ) - (((B : ℕ) : ℤ) : ℚ) = 0)]

theorem parseDecimal_natDot0 (B : ℕ) :
    parseDecimal (natToChars B ++ ['.', '0']) = some ((B : ℚ)) := by
  unfold parseDecimal
  have hdot : isDigitChar '.' = false := rfl
  have hall : ∀ c ∈ natToChars B, isDigitChar c = true := by
    intro c hc
    obtain ⟨k, hk, rfl⟩ := natToChars_digit_mem B c hc
    exact isDigitChar_digitChar k hk
  obtain ⟨htw, hdw⟩ := takeWhile_append_sep isDigitChar (natToChars B) '.' ['0']
    hall hdot
  rw [htw, hdw]
  rw [if_neg (by simpa using natToChars_ne_nil B)]
  trans (some (((parseNatAcc 0 (natToChars B) : ℕ) : ℚ) +
    ((0 : ℕ) : ℚ) / (10 : ℚ) ^ (1 : ℕ)))
  · rfl
  · rw [parseNat_natToChars]
    norm_num

theorem dedupQ_ones (ps : List ℕ) :
    dedupQ (ps.map (fun _ => (1 : ℚ)) ++ [1]) = [1] := by
  induction ps with
  | nil => rfl
  | cons p rest ih =>
    rw [List.map_cons, List.cons_append, dedupQ,
      if_pos (List.mem_append_right _ (List.mem_singleton.mpr rfl))]
    exact ih

theorem tapFamily_measures (ps : List ℕ) :
    (ps.map (fun p : ℕ => SimaiTapNote.make 1 (p : ℤ) false false false)).map
        (fun nt => nt.measure) = ps.map (fun _ => (1 : ℚ)) := by
  rw [List.map_map]
  rfl

theorem tapFamily_filter_measure (ps : List ℕ) :
    (ps.map (fun p : ℕ => SimaiTapNote.make 1 (p : ℤ) false false false)).filter
        (fun nt => decide (nt.measure = 1)) =
      ps.map (fun p : ℕ => SimaiTapNote.make 1 (p : ℤ) false false false) := by
  rw [List.filter_eq_self]
  intro nt hnt
  obtain ⟨p, _, rfl⟩ := List.mem_map.mp hnt
  rfl

theorem tapFamily_filter_holdSlide (ps : List ℕ) :
    (ps.map (fun p : ℕ => SimaiTapNote.make 1 (p : ℤ) false false false)).filter
        (fun nt => decide (nt.note_type = NoteType.hold) ||
          decide (nt.note_type = NoteType.ex_hold) ||
          decide (nt.note_type = NoteType.touch_hold) ||
          decide (nt.note_type = NoteType.complete_slide)) = [] := by
  rw [List.filter_eq_nil_iff]
  intro nt hnt
  obtain ⟨p, _, rfl⟩ := List.mem_map.mp hnt
  exact fun hco => Bool.noConfusion hco

theorem tapFamily_filter_tapClass (ps : List ℕ) :
    (ps.map (fun p : ℕ => SimaiTapNote.make 1 (p : ℤ) false false false)).filter
        tapClass =
      ps.map (fun p : ℕ => SimaiTapNote.make 1 (p : ℤ) false false false) := by
  rw [List.filter_eq_self]
  intro nt hnt
  obtain ⟨p, _, rfl⟩ := List.mem_map.mp hnt
  rfl

theorem tapFamily_filter_holdClass (ps : List ℕ) :
    (ps.map (fun p : ℕ => SimaiTapNote.make 1 (p : ℤ) false false false)).filter
        holdClass = [] := by
  rw [List.filter_eq_nil_iff]
  intro nt hnt
  obtain ⟨p, _, rfl⟩ := List.mem_map.mp hnt
  exact fun hco => Bool.noConfusion hco

theorem tapFamily_filter_touchTap (ps : List ℕ) :
    (ps.map (fun p : ℕ => SimaiTapNote.make 1 (p : ℤ) false false false)).filter
        (fun nt => decide (nt.note_type = NoteType.touch_tap)) = [] := by
  rw [List.filter_eq_nil_iff]
  intro nt hnt
  obtain ⟨p, _, rfl⟩ := List.mem_map.mp hnt
  exact fun hco => Bool.noConfusion hco

theorem tapFamily_filter_touchHold (ps : List ℕ) :
    (ps.map (fun p : ℕ => SimaiTapNote.make 1 (p : ℤ) false false false)).filter
        (fun nt => decide (nt.note_type = NoteType.touch_hold)) = [] := by
  rw [List.filter_eq_nil_iff]
  intro nt hnt
  obtain ⟨p, _, rfl⟩ := List.mem_map.mp hnt
  exact fun hco => Bool.noConfusion hco

theorem tapFamily_filter_slide (ps : List ℕ) :
    (ps.map (fun p : ℕ => SimaiTapNote.make 1 (p : ℤ) false false false)).filter
        (fun nt => decide (nt.note_type = NoteType.complete_slide)) = [] := by
  rw [List.filter_eq_nil_iff]
  intro nt hnt
  obtain ⟨p, _, rfl⟩ := List.mem_map.mp hnt
  exact fun hco => Bool.noConfusion hco

theorem filterMap_events_snd {α β : Type} (g : α ⊕ β → Option β)
    (hinl : ∀ a, g (Sum.inl a) = none) (b : β) (hb : g (Sum.inr b) = some b) :
    ∀ l : List α, (l.map Sum.inl ++ [Sum.inr b]).filterMap g = [b] := by
  intro l
  induction l with
  | nil => simp [List.filterMap_cons, hb]
  | cons x xs ih =>
    simp only [List.map_cons, List.cons_append, List.filterMap_cons, hinl]
    exact ih

theorem filterMap_events_fst {α β : Type} (g : α ⊕ β → Option α)
    (hinl : ∀ a, g (Sum.inl a) = some a) (b : β) (hb : g (Sum.inr b) = none) :
    ∀ l : List α, (l.map Sum.inl ++ [Sum.inr b]).filterMap g = l := by
  intro l
  induction l with
  | nil => simp [List.filterMap_cons, hb]
  | cons x xs ih =>
    simp only [List.map_cons, List.cons_append, List.filterMap_cons, hinl]
    rw [ih]

theorem fragTaps_tap_family (ps : List ℕ) :
    ∀ (frag : List Char) (k : ℕ),
      fragTaps [] (ps.map (fun p : ℕ => SimaiTapNote.make 1 (p : ℤ) false false false))
          frag k =
        (frag ++ tapsRendered ps k, k + ps.length) := by
  induction ps with
  | nil =>
    intro frag k
    simp [fragTaps, tapsRendered]
  | cons p rest ih =>
    intro frag k
    rw [List.map_cons]
    have hstep :
        fragTaps [] (SimaiTapNote.make 1 (p : ℤ) false false false ::
            rest.map (fun p : ℕ => SimaiTapNote.make 1 (p : ℤ) false false false))
          frag k =
        fragTaps [] (rest.map (fun p : ℕ => SimaiTapNote.make 1 (p : ℤ) false false false))
          (frag ++ (if 0 < k then ['/'] else []) ++ intToChars ((p : ℤ) + 1) ++ [])
          (k + 1) := rfl
    rw [hstep, ih, intToChars_natCast_succ p]
    simp only [tapsRendered, Prod.mk.injEq, List.length_cons]
    refine ⟨by simp, by omega⟩

theorem convert_tap_family (B : ℕ) (ps : List ℕ) :
    simai_convert_to_fragment
        ((ps.map (fun p : ℕ => SimaiTapNote.make 1 (p : ℤ) false false false)).map
            Sum.inl ++ [Sum.inr ⟨1, (B : ℚ)⟩])
        (some (B : ℚ)) none =
      .ok ('(' :: (pyFloatRepr (B : ℚ) ++ [')']) ++ tapsRendered ps 0) := by
  unfold simai_convert_to_fragment
  rw [if_neg (by simp)]
  rw [filterMap_events_snd eventBPM (fun a => rfl) ⟨1, (B : ℚ)⟩ rfl,
    filterMap_events_fst eventNote (fun a => rfl) ⟨1, (B : ℚ)⟩ rfl]
  dsimp only
  rw [tapFamily_filter_tapClass, tapFamily_filter_holdClass,
    tapFamily_filter_touchTap, tapFamily_filter_touchHold, tapFamily_filter_slide]
  simp only [show sortSlides [] = ([] : List SimaiNote) from rfl]
  rw [fragTaps_tap_family ps (('(' :: (pyFloatRepr (B : ℚ) ++ [')'])) ++ []) 0]
  simp [fragHolds, fragTouchTaps, fragTouchHolds, fragSlides]

theorem get_bpm_tap_family (B : ℕ) (ps : List ℕ) :
    SimaiChart.get_bpm
      ⟨ps.map (fun p : ℕ => SimaiTapNote.make 1 (p : ℤ) false false false),
        [⟨1, (B : ℚ)⟩]⟩ 1 = some (B : ℚ) := rfl

theorem exportLoop_tap_family (B : ℕ) (ps : List ℕ) :
    exportLoop
        ⟨ps.map (fun p : ℕ => SimaiTapNote.make 1 (p : ℤ) false false false),
          [⟨1, (B : ℚ)⟩]⟩ [1] 1 1 none [] =
      .ok (('(' :: (pyFloatRepr (B : ℚ) ++ [')'])) ++ tapsRendered ps 0) := by
  rw [exportLoop]
  dsimp only
  rw [tapFamily_filter_measure, tapFamily_filter_holdSlide]
  rw [show ([(⟨1, (B : ℚ)⟩ : SimaiBPM)] : List SimaiBPM).filter
      (fun b => decide (b.measure = 1)) = [⟨1, (B : ℚ)⟩] from rfl]
  rw [show pyInt (1 : ℚ) = (1 : ℤ) from rfl]
  simp only [List.foldl_nil, lt_irrefl, if_false]
  rw [get_bpm_tap_family]
  rw [show ([(⟨1, (B : ℚ)⟩ : SimaiBPM)] : List SimaiBPM).map Sum.inr =
      [Sum.inr (⟨1, (B : ℚ)⟩ : SimaiBPM)] from rfl]
  rw [show (if (none : Option ℕ) ≠ none then (none : Option ℕ) else none) =
      (none : Option ℕ) from rfl]
  rw [convert_tap_family]
  simp [exportLoop]

theorem export_tap_family (B : ℕ) (ps : List ℕ) :
    SimaiChart.export
        ⟨ps.map (fun p : ℕ => SimaiTapNote.make 1 (p : ℤ) false false false),
          [⟨1, (B : ℚ)⟩]⟩ =
      .ok (String.mk ((('(' :: (pyFloatRepr (B : ℚ) ++ [')'])) ++ tapsRendered ps 0) ++
        [',', '\n', 'E'])) := by
  unfold SimaiChart.export
  rw [if_neg (by simp)]
  rw [get_bpm_tap_family]
  dsimp only
  rw [tapFamily_measures]
  rw [show ([(⟨1, (B : ℚ)⟩ : SimaiBPM)] : List SimaiBPM).map (fun b => b.measure) =
      [(1 : ℚ)] from rfl]
  rw [dedupQ_ones]
  rw [show sortQ [(1 : ℚ)] = [(1 : ℚ)] from rfl]
  rw [exportLoop_tap_family]

theorem tapsRendered_chars :
    ∀ (ps : List ℕ) (k : ℕ) (c : Char), c ∈ tapsRendered ps k →
      48 ≤ c.toNat ∧ c.toNat ≤ 57 ∨ c.toNat = 47 := by
  intro ps
  induction ps with
  | nil => intro k c hc; simp [tapsRendered] at hc
  | cons p rest ih =>
    intro k c hc
    simp only [tapsRendered, List.mem_append] at hc
    rcases hc with (hc | hc) | hc
    · by_cases hk : 0 < k
      · rw [if_pos hk] at hc
        right
        rw [List.mem_singleton.mp hc]
        rfl
      · rw [if_neg hk] at hc
        simp at hc
    · exact Or.inl (natToChars_toNat_range _ c hc)
    · exact ih _ c hc

theorem tapText_toNat_facts (B : ℕ) (ps : List ℕ) (c : Char)
    (hc : c ∈ ('(' :: (pyFloatRepr (B : ℚ) ++ [')'])) ++ tapsRendered ps 0) :
    33 ≤ c.toNat ∧ c.toNat ≠ 44 := by
  rw [pyFloatRepr_natCast] at hc
  simp only [List.cons_append, List.mem_cons, List.mem_append,
    List.mem_singleton, List.mem_nil_iff, or_false] at hc
  have h40 : ('(' : Char).toNat = 40 := rfl
  have h41 : (')' : Char).toNat = 41 := rfl
  have h46 : ('.' : Char).toNat = 46 := rfl
  have h48 : ('0' : Char).toNat = 48 := rfl
  rcases hc with rfl | ((hd | (rfl | rfl)) | rfl) | ht
  · omega
  · have := natToChars_toNat_range B c hd
    omega
  · omega
  · omega
  · omega
  · have := tapsRendered_chars ps 0 c ht
    omega

theorem stripWS_tap_text (B : ℕ) (ps : List ℕ) :
    stripWS ((('(' :: (pyFloatRepr (B : ℚ) ++ [')'])) ++ tapsRendered ps 0) ++
        [',', '\n', 'E']) =
      (('(' :: (pyFloatRepr (B : ℚ) ++ [')'])) ++ tapsRendered ps 0) ++ [',', 'E'] := by
  unfold stripWS
  rw [List.filter_append]
  congr 1
  · rw [List.filter_eq_self]
    intro c hc
    rw [isWSChar_eq_false c (tapText_toNat_facts B ps c hc).1]
    rfl

theorem splitOnChar_tap_text (B : ℕ) (ps : List ℕ) :
    splitOnChar ',' ((('(' :: (pyFloatRepr (B : ℚ) ++ [')'])) ++ tapsRendered ps 0) ++
        [',', 'E']) =
      [('(' :: (pyFloatRepr (B : ℚ) ++ [')'])) ++ tapsRendered ps 0, ['E']] := by
  unfold splitOnChar
  rw [splitOnAux_append_sep ',' _ ['E'] []
    (fun x hx => ne_of_toNat_ne (by
      have h2 := (tapText_toNat_facts B ps x hx).2
      have h3 : (',' : Char).toNat = 44 := rfl
      omega))]
  rw [splitOnAux_no_sep ',' ['E'] []
    (fun x hx => by rw [List.mem_singleton.mp hx]; decide)]
  simp

theorem parseToken_digit (p : ℕ) (hp : p < 8) :
    parseToken [digitChar (p + 1)] = .ok (.tapEv (p : ℤ) none) := by
  unfold parseToken
  have ht : (digitChar (p + 1)).toNat = 49 + p := by
    rw [digitChar_toNat _ (by omega)]
    omega
  dsimp only
  rw [ht]
  rw [if_pos (by simp only [Bool.and_eq_true, decide_eq_true_eq]; omega)]
  show Except.ok (FragEvent.tapEv (((49 + p : ℕ) : ℤ) - 49) none) =
    Except.ok (FragEvent.tapEv (p : ℤ) none)
  have hb : ((49 + p : ℕ) : ℤ) - 49 = (p : ℤ) := by push_cast; ring
  rw [hb]

theorem parseTokens_digits (ps : List ℕ) (hps : ∀ p ∈ ps, p < 8) :
    parseTokens (ps.map (fun p : ℕ => [digitChar (p + 1)])) =
      .ok (ps.map (fun p : ℕ => FragEvent.tapEv (p : ℤ) none)) := by
  induction ps with
  | nil => rfl
  | cons p rest ih =>
    rw [List.map_cons, List.map_cons, parseTokens]
    rw [parseToken_digit p (hps p (List.mem_cons_self p rest))]
    rw [ih (fun q hq => hps q (List.mem_cons_of_mem p hq))]

theorem splitOnAux_tapsRendered :
    ∀ (ps : List ℕ) (k : ℕ) (acc : List Char), 1 ≤ k → (∀ p ∈ ps, p < 8) →
      splitOnAux '/' (tapsRendered ps k) acc =
        acc.reverse :: ps.map (fun p : ℕ => [digitChar (p + 1)]) := by
  intro ps
  induction ps with
  | nil =>
    intro k acc _ _
    simp [tapsRendered, splitOnAux]
  | cons p rest ih =>
    intro k acc hk hlt
    have h9 : p + 1 < 10 := by
      have := hlt p (List.mem_cons_self p rest)
      omega
    rw [tapsRendered, if_pos (by omega : 0 < k), natToChars_single _ h9]
    simp only [List.cons_append, List.nil_append]
    rw [splitOnAux, if_pos rfl]
    rw [splitOnAux, if_neg (ne_of_toNat_ne (by
      rw [digitChar_toNat _ h9]
      have h47 : ('/' : Char).toNat = 47 := rfl
      omega))]
    rw [ih (k + 1) [digitChar (p + 1)] (by omega)
      (fun q hq => hlt q (List.mem_cons_of_mem p hq))]
    simp

theorem splitOnChar_tapsRendered (p : ℕ) (rest : List ℕ)
    (hps : ∀ q ∈ p :: rest, q < 8) :
    splitOnChar '/' (tapsRendered (p :: rest) 0) =
      (p :: rest).map (fun q : ℕ => [digitChar (q + 1)]) := by
  have h9 : p + 1 < 10 := by
    have := hps p (List.mem_cons_self p rest)
    omega
  unfold splitOnChar
  rw [tapsRendered, if_neg (lt_irrefl 0), natToChars_single _ h9]
  simp only [List.cons_append, List.nil_append]
  rw [splitOnAux, if_neg (ne_of_toNat_ne (by
    rw [digitChar_toNat _ h9]
    have h47 : ('/' : Char).toNat = 47 := rfl
    omega))]
  rw [splitOnAux_tapsRendered rest 1 [digitChar (p + 1)] (le_refl 1)
    (fun q hq => hps q (List.mem_cons_of_mem p hq))]
  simp

theorem parseParen_tap_text (B : ℕ) (ps : List ℕ) :
    parseParenGroup (('(' :: (pyFloatRepr (B : ℚ) ++ [')'])) ++ tapsRendered ps 0) =
      .ok (some (.bpmEv (B : ℚ)), tapsRendered ps 0) := by
  rw [pyFloatRepr_natCast]
  rw [List.cons_append, List.append_assoc, List.singleton_append]
  unfold parseParenGroup
  dsimp only
  rw [if_pos rfl]
  have hall : ∀ x ∈ natToChars B ++ ['.', '0'], (!decide (x = ')')) = true := by
    intro x hx
    have hxn : x.toNat ≠ 41 := by
      rcases List.mem_append.mp hx with h | h
      · have := natToChars_toNat_range B x h
        omega
      · have h46 : ('.' : Char).toNat = 46 := rfl
        have h48 : ('0' : Char).toNat = 48 := rfl
        simp only [List.mem_cons, List.mem_singleton, List.mem_nil_iff,
          or_false] at h
        rcases h with rfl | rfl
        · omega
        · omega
    have hne : x ≠ ')' := ne_of_toNat_ne (by
      have : (')' : Char).toNat = 41 := rfl
      omega)
    simp [hne]
  obtain ⟨htw, hdw⟩ := takeWhile_append_sep (fun x => !decide (x = ')'))
    (natToChars B ++ ['.', '0']) ')' (tapsRendered ps 0) hall rfl
  rw [htw, hdw]
  dsimp only
  rw [if_pos rfl]
  rw [parseDecimal_natDot0]

theorem parseBrace_tap_text (ps : List ℕ) (hps : ∀ p ∈ ps, p < 8) :
    parseBraceGroup (tapsRendered ps 0) = .ok (none, tapsRendered ps 0) := by
  cases ps with
  | nil => rfl
  | cons p rest =>
    have h9 : p + 1 < 10 := by
      have := hps p (List.mem_cons_self p rest)
      omega
    rw [tapsRendered, if_neg (lt_irrefl 0), natToChars_single _ h9]
    simp only [List.cons_append, List.nil_append]
    unfold parseBraceGroup
    dsimp only
    rw [if_neg (ne_of_toNat_ne (by
      rw [digitChar_toNat _ h9]
      have h123 : ('{' : Char).toNat = 123 := rfl
      omega))]

theorem tapsRendered_cons_ne_nil (p : ℕ) (rest : List ℕ) :
    tapsRendered (p :: rest) 0 ≠ [] := by
  rw [tapsRendered, if_neg (lt_irrefl 0)]
  simp [natToChars_ne_nil]

theorem parse_fragment_tap_family (B : ℕ) (ps : List ℕ) (hps : ∀ p ∈ ps, p < 8) :
    simai_parse_fragment
        (('(' :: (pyFloatRepr (B : ℚ) ++ [')'])) ++ tapsRendered ps 0) =
      .ok (.bpmEv (B : ℚ) :: ps.map (fun p : ℕ => FragEvent.tapEv (p : ℤ) none)) := by
  unfold simai_parse_fragment
  rw [parseParen_tap_text]
  dsimp only
  rw [parseBrace_tap_text ps hps]
  dsimp only
  cases ps with
  | nil => rfl
  | cons p rest =>
    rw [if_neg (tapsRendered_cons_ne_nil p rest)]
    rw [splitOnChar_tapsRendered p rest hps]
    rw [parseTokens_digits (p :: rest) hps]
    rfl

theorem handle_tap_events (ps : List ℕ) :
    ∀ (c : SimaiChart) (bpm div : ℚ) (stars : List ℤ),
      simai_handle_events ⟨c, bpm, div, 1⟩ stars
          (ps.map (fun p : ℕ => FragEvent.tapEv (p : ℤ) none)) =
        .ok ⟨⟨c.notes ++ ps.map (fun p : ℕ =>
            SimaiTapNote.make 1 (p : ℤ) false false false), c.bpms⟩, bpm, div, 1⟩ := by
  induction ps with
  | nil =>
    intro c bpm div stars
    simp [simai_handle_events]
  | cons p rest ih =>
    intro c bpm div stars
    rw [List.map_cons, simai_handle_events]
    rw [show simai_handle_event ⟨c, bpm, div, 1⟩ stars (.tapEv (p : ℤ) none) =
        .ok (⟨⟨c.notes ++ [SimaiTapNote.make 1 (p : ℤ) false false false], c.bpms⟩,
          bpm, div, 1⟩, stars) from rfl]
    dsimp only
    rw [ih]
    simp

theorem parse_tap_family (B : ℕ) (ps : List ℕ) (hB : 1 ≤ B)
    (hps : ∀ p ∈ ps, p < 8) :
    simai_parse_chart (String.mk ((('(' :: (pyFloatRepr (B : ℚ) ++ [')'])) ++
        tapsRendered ps 0) ++ [',', '\n', 'E'])) =
      .ok ⟨ps.map (fun p : ℕ => SimaiTapNote.make 1 (p : ℤ) false false false),
        [⟨1, (B : ℚ)⟩]⟩ := by
  unfold simai_parse_chart
  rw [show (String.mk ((('(' :: (pyFloatRepr (B : ℚ) ++ [')'])) ++
      tapsRendered ps 0) ++ [',', '\n', 'E'])).data =
    (('(' :: (pyFloatRepr (B : ℚ) ++ [')'])) ++
      tapsRendered ps 0) ++ [',', '\n', 'E'] from rfl]
  rw [stripWS_tap_text, splitOnChar_tap_text]
  rw [simai_process_fragments]
  rw [if_neg (by simp : ¬ ('(' :: (pyFloatRepr (B : ℚ) ++ [')'])) ++
    tapsRendered ps 0 = ['E'])]
  rw [if_neg (by simp : ¬ ('(' :: (pyFloatRepr (B : ℚ) ++ [')'])) ++
    tapsRendered ps 0 = [])]
  rw [parse_fragment_tap_family B ps hps]
  dsimp only
  rw [simai_handle_events]
  have hbpm : simai_handle_event ⟨⟨[], []⟩, 120, 4, 1⟩ [] (.bpmEv (B : ℚ)) =
      .ok (⟨⟨[], [⟨1, (B : ℚ)⟩]⟩, (B : ℚ), 4, 1⟩, []) := by
    unfold simai_handle_event SimaiChart.set_bpm SimaiBPM.make
    dsimp only
    rw [if_neg (by
      push_neg
      exact_mod_cast Nat.pos_of_ne_zero (by omega))]
    rfl
  rw [hbpm]
  dsimp only
  rw [handle_tap_events ps ⟨[], [⟨1, (B : ℚ)⟩]⟩ (B : ℚ) 4 []]
  dsimp only
  rw [if_neg (by norm_num : ¬ (4 : ℚ) = 0)]
  rw [simai_process_fragments]
  rw [if_pos rfl]
  simp

/-- C1 (amended): for a chart with a single tempo marker `(1.0, B)` (`B`
a positive integer) and only plain taps at measure 1.0 on lanes below 8,
`SimaiChart.export` succeeds and `simai_parse_chart` applied to the
exported text returns exactly the original chart: the round trip is
lossless on this family.  (It is not lossless in general:
`c1_counterexample` exhibits a hold whose duration is changed by the
export's `limit_denominator(1000)` by more than the claimed `1e-4`.) -/
theorem c1_amended_round_trip (B : ℕ) (ps : List ℕ) (hB : 1 ≤ B)
    (hps : ∀ p ∈ ps, p < 8) :
    ∃ text : String,
      SimaiChart.export
          ⟨ps.map (fun p : ℕ => SimaiTapNote.make 1 (p : ℤ) false false false),
            [⟨1, (B : ℚ)⟩]⟩ = .ok text ∧
      simai_parse_chart text =
        .ok ⟨ps.map (fun p : ℕ => SimaiTapNote.make 1 (p : ℤ) false false false),
          [⟨1, (B : ℚ)⟩]⟩ :=
  ⟨_, export_tap_family B ps, parse_tap_family B ps hB hps⟩

/-- Witness for `c1_amended_round_trip` at `B = 120`, `ps = [0, 4, 7]`. -/
theorem c1_amended_round_trip_witness :
    (1 ≤ 120 ∧ ∀ p ∈ [0, 4, 7], p < 8) ∧
      (∃ text : String,
        SimaiChart.export
            ⟨[0, 4, 7].map (fun p : ℕ => SimaiTapNote.make 1 (p : ℤ) false false false),
              [⟨1, ((120 : ℕ) : ℚ)⟩]⟩ = .ok text ∧
        simai_parse_chart text =
          .ok ⟨[0, 4, 7].map (fun p : ℕ => SimaiTapNote.make 1 (p : ℤ) false false false),
            [⟨1, ((120 : ℕ) : ℚ)⟩]⟩) :=
  ⟨⟨by norm_num, by decide⟩,
    c1_amended_round_trip 120 [0, 4, 7] (by norm_num) (by decide)⟩
